import Mathlib

/-!
Verification of the weather-app forecast pipeline (Rust sources under `src/`).

Shallow embedding conventions:

* `serde_json::Value` is modelled by `Json` below; JSON numbers are modelled
  as rationals (`f64` arithmetic is modelled exactly over `ℚ`; IEEE special
  values are modelled explicitly where a claim depends on them, see `F64`).
* The byte length of `serde_json::to_string(value)` is an uninterpreted
  parameter `size : Json → Nat`: every theorem below holds for an arbitrary
  size function, so no property depends on serialization details.
* RFC3339 timestamp parsing (`chrono::DateTime::parse_from_rfc3339` followed
  by `timestamp_millis`) is an uninterpreted parameter
  `pt : String → Option Int` (epoch milliseconds, `none` = parse failure).
* Redis is modelled as a map from structured keys (`RKey`) to typed stored
  values (`CVal`); the constructors of `RKey` mirror the key format strings
  `"{base}"`, `"{base}:chunks"`, `"{base}:chunk:{i}"`, `"{base}:meta"`,
  `"{base}:indices"`, `"{base}:current_index"`, `"{base}:{index}"` of
  `src/services/redis_client.rs`.  `CVal` tags what the stored string parses
  as; TTLs are not modelled (no claim mentions expiry behaviour).
* Fallible Rust code (`anyhow::Result`, plus index-out-of-bounds and
  `chunks(0)` panics) is modelled with `Except String`.
-/

/-- JSON values (`serde_json::Value`); object fields are an association list
ordered by key, mirroring the `BTreeMap` used by `serde_json::Map`. -/
inductive Json where
  | null
  | bool (b : Bool)
  | num (q : ℚ)
  | str (s : String)
  | arr (xs : List Json)
  | obj (fields : List (String × Json))

/-- `Map::get` on an object's field list (first binding wins, as in a map
whose keys are distinct). -/
def getF : List (String × Json) → String → Option Json
  | [], _ => none
  | (k, v) :: rest, key => if k = key then some v else getF rest key

/-- `BTreeMap::remove`: drop the binding of `key` (keys are distinct). -/
def mapRemove (key : String) : List (String × Json) → List (String × Json)
  | [] => []
  | (k, v) :: rest => if k = key then rest else (k, v) :: mapRemove key rest

/-- `BTreeMap::insert`: insert `key ↦ v` keeping the list sorted by key. -/
def mapInsert (key : String) (v : Json) : List (String × Json) → List (String × Json)
  | [] => [(key, v)]
  | (k, w) :: rest =>
    if key < k then (key, v) :: (k, w) :: rest
    else if key = k then (key, v) :: rest
    else (k, w) :: mapInsert key v rest

/-- The `BTreeMap` ordering invariant: field keys strictly increasing. -/
def keysSorted : List (String × Json) → Prop
  | [] => True
  | (k, _) :: rest => (∀ p ∈ rest, k < p.1) ∧ keysSorted rest

/-- Keys named by `redis_client.rs`: a plain base key `"{s}"` or an indexed
key `"{s}:{i}"` (both are used as bases for the chunking protocol). -/
inductive BKey where
  | base (s : String)
  | indexed (s : String) (i : Nat)
deriving DecidableEq

/-- Physical Redis keys used by `redis_client.rs`. -/
inductive RKey where
  | plain (bk : BKey)
  | chunks (bk : BKey)
  | chunk (bk : BKey) (i : Nat)
  | meta (bk : BKey)
  | indices (s : String)
  | currentIndex (s : String)
deriving DecidableEq

/-- One entry of the `{base}:indices` list (`struct IndexEntry`).
`hours_back: Option<f64>` is modelled over `ℚ`. -/
structure IndexEntry where
  index : Nat
  timestamp : String
  dataPoints : Nat
  runName : Option String
  dataTime : Option String
  hoursBack : Option ℚ
  forecastOffset : Option Int
  runAge : Option String
deriving DecidableEq

/-- What a stored Redis string parses as: a JSON value, a decimal count
(`{base}:chunks`, `{base}:current_index`), or an `IndexEntry` list. -/
inductive CVal where
  | js (j : Json)
  | cnt (n : Nat)
  | entries (es : List IndexEntry)

/-- The Redis database state. -/
def Store := RKey → Option CVal

/-- `SET key value` (TTL not modelled). -/
def setK (s : Store) (k : RKey) (v : CVal) : Store :=
  fun k' => if k' = k then some v else s k'

/-- `DEL key`. -/
def delK (s : Store) (k : RKey) : Store :=
  fun k' => if k' = k then none else s k'

/-- The 8 MB chunking ceiling (`MAX_SIZE`). -/
def MAXSIZE : Nat := 8 * 1024 * 1024

/-- `(a as f64 / b as f64).ceil()` on natural counts. -/
def ceilDiv (a b : Nat) : Nat := (a + b - 1) / b

/-- `slice::chunks k` (fuel-based so that it reduces definitionally;
`chunkListF` with fuel ≥ `xs.length` equals the mathematical chunking). -/
def chunkListF (k : Nat) : Nat → List Json → List (List Json)
  | 0, _ => []
  | _, [] => []
  | fuel + 1, xs => xs.take k :: chunkListF k fuel (xs.drop k)

def chunkList (k : Nat) (xs : List Json) : List (List Json) :=
  chunkListF k xs.length xs

/-- Store each chunk at `{base}:chunk:{i}`, `i` counting from `start`. -/
def writeChunks (bk : BKey) : Nat → List (List Json) → Store → Store
  | _, [], s => s
  | i, c :: cs, s => writeChunks bk (i + 1) cs (setK s (RKey.chunk bk i) (CVal.js (Json.arr c)))

section CacheStore

variable (size : Json → Nat)

/-- `store_chunked_array` (redis_client.rs:86).  `chunks(0)` would be a Rust
panic, modelled as an error; it is reachable only for an empty oversized
array. -/
def storeChunkedArray (xs : List Json) (bk : BKey) (s : Store) : Except String Store :=
  let dataSize := size (Json.arr xs)
  let chunkSize := ceilDiv xs.length (ceilDiv dataSize MAXSIZE)
  if chunkSize = 0 then .error "panicked: chunk size must be non-zero"
  else
    let cs := chunkList chunkSize xs
    let s1 := setK s (RKey.chunks bk) (CVal.cnt cs.length)
    .ok (writeChunks bk 0 cs s1)

/-- `store_chunked_object` (redis_client.rs:127). -/
def storeChunkedObject (fields : List (String × Json)) (pts : List Json) (bk : BKey)
    (s : Store) : Except String Store :=
  let dataSize := size (Json.obj fields)
  let chunkSize := ceilDiv pts.length (ceilDiv dataSize MAXSIZE)
  if chunkSize = 0 then .error "panicked: chunk size must be non-zero"
  else
    let cs := chunkList chunkSize pts
    let meta := mapRemove "points" fields
    let s1 := setK s (RKey.meta bk) (CVal.js (Json.obj meta))
    let s2 := setK s1 (RKey.chunks bk) (CVal.cnt cs.length)
    .ok (writeChunks bk 0 cs s2)

/-- `set_wind_data` (redis_client.rs:53): direct store at or under the 8 MB
ceiling, otherwise chunk a bare array or an object's `points` array; any
other oversized shape fails. -/
def setWindData (data : Json) (bk : BKey) (s : Store) : Except String Store :=
  if size data > MAXSIZE then
    match data with
    | Json.arr xs => storeChunkedArray size xs bk s
    | Json.obj fields =>
      match getF fields "points" with
      | some (Json.arr pts) => storeChunkedObject size fields pts bk s
      | _ => .error "Data too large and cannot be chunked automatically"
    | _ => .error "Data too large and cannot be chunked automatically"
  else
    .ok (setK s (RKey.plain bk) (CVal.js data))

end CacheStore

/-- The chunk-collection loop of `get_wind_data` (redis_client.rs:200-210):
read `{base}:chunk:{i}` for `i` in `start..start+n`; a missing chunk is
skipped, a chunk that does not parse as a JSON array is an error. -/
def readChunksFrom (bk : BKey) (s : Store) : Nat → Nat → Except String (List Json)
  | _, 0 => .ok []
  | i, n + 1 =>
    match s (RKey.chunk bk i) with
    | none => readChunksFrom bk s (i + 1) n
    | some (CVal.js (Json.arr xs)) =>
      (readChunksFrom bk s (i + 1) n).map (fun rest => xs ++ rest)
    | some _ => .error "invalid chunk"

/-- `get_wind_data` (redis_client.rs:186): transparent chunk reassembly. -/
def getWindData (bk : BKey) (s : Store) : Except String (Option Json) :=
  match s (RKey.chunks bk) with
  | some (CVal.cnt n) =>
    (readChunksFrom bk s 0 n).bind (fun points =>
      match s (RKey.meta bk) with
      | none => .ok (some (Json.arr points))
      | some (CVal.js (Json.obj m)) =>
        .ok (some (Json.obj (mapInsert "points" (Json.arr points) m)))
      | some _ => .error "invalid metadata")
  | some _ => .error "invalid chunk count"
  | none =>
    match s (RKey.plain bk) with
    | none => .ok none
    | some (CVal.js j) => .ok (some j)
    | some _ => .error "invalid stored data"

/-- `count_data_points` (redis_client.rs:507). -/
def countDataPoints : Json → Nat
  | Json.arr xs => xs.length
  | Json.obj fs =>
    match getF fs "points" with
    | some (Json.arr pts) => pts.length
    | _ => 0
  | _ => 0

/-- `data.get(k).and_then(|v| v.as_str())`. -/
def jGetStr : Json → String → Option String
  | Json.obj fs, k =>
    match getF fs k with
    | some (Json.str s) => some s
    | _ => none
  | _, _ => none

/-- `data.get(k).and_then(|v| v.as_f64())`. -/
def jGetNum : Json → String → Option ℚ
  | Json.obj fs, k =>
    match getF fs k with
    | some (Json.num q) => some q
    | _ => none
  | _, _ => none

/-- `data.get(k).and_then(|v| v.as_i64())` (integral numbers only). -/
def jGetInt : Json → String → Option Int
  | Json.obj fs, k =>
    match getF fs k with
    | some (Json.num q) => if q.den = 1 then some q.num else none
    | _ => none
  | _, _ => none

/-- `{base}:current_index` read: missing or unparseable means `0`. -/
def readCurrentIndex (base : String) (s : Store) : Nat :=
  match s (RKey.currentIndex base) with
  | some (CVal.cnt n) => n
  | _ => 0

/-- `{base}:indices` read: missing or unparseable means the empty list. -/
def readIndices (base : String) (s : Store) : List IndexEntry :=
  match s (RKey.indices base) with
  | some (CVal.entries es) => es
  | _ => []

/-- The 2-hour duplicate tolerance in milliseconds. -/
def toleranceMs : Int := 2 * 60 * 60 * 1000

/-- The duplicate scan of `set_wind_data_with_index` (redis_client.rs:317):
position of the first entry whose parsed `dataTime` is strictly within
`toleranceMs` of the new value's parsed `dataTime`. -/
def findDupIdx (pt : String → Option Int) (dt : Option String)
    (es : List IndexEntry) : Option Nat :=
  match dt with
  | none => none
  | some d =>
    match pt d with
    | none => none
    | some t =>
      es.findIdx? (fun e =>
        match e.dataTime with
        | some d2 =>
          match pt d2 with
          | some t2 => (t - t2).natAbs < toleranceMs.natAbs
          | none => false
        | none => false)

/-- Delete `{base}:chunk:{i}` for `n` indices starting at `i`. -/
def delChunks (bk : BKey) : Nat → Nat → Store → Store
  | _, 0, s => s
  | i, n + 1, s => delChunks bk (i + 1) n (delK s (RKey.chunk bk i))

/-- `delete_data` (redis_client.rs:484): delete the chunked form if a chunk
count is present, else the plain key. -/
def deleteData (bk : BKey) (s : Store) : Except String Store :=
  match s (RKey.chunks bk) with
  | some (CVal.cnt n) =>
    .ok (delK (delK (delChunks bk 0 n s) (RKey.chunks bk)) (RKey.meta bk))
  | some _ => .error "invalid chunk count"
  | none => .ok (delK s (RKey.plain bk))

/-- The eviction loop of `set_wind_data_with_index` (redis_client.rs:381). -/
def deleteOldEntries (base : String) : List IndexEntry → Store → Except String Store
  | [], s => .ok s
  | e :: rest, s =>
    (deleteData (BKey.indexed base e.index) s).bind (deleteOldEntries base rest)

/-- The `IndexEntry` built from the written value (redis_client.rs:346/358). -/
def newEntryOf (nowStr : String) (data : Json) (idx : Nat) : IndexEntry :=
  { index := idx
    timestamp := nowStr
    dataPoints := countDataPoints data
    runName := jGetStr data "runName"
    dataTime := jGetStr data "dataTime"
    hoursBack := jGetNum data "hoursBack"
    forecastOffset := jGetInt data "forecastOffset"
    runAge := jGetStr data "runAge" }

/-- The index the write uses: a matched entry's index, else `current_index`. -/
def usedIdx (pt : String → Option Int) (data : Json) (base : String) (s : Store) : Nat :=
  match findDupIdx pt (jGetStr data "dataTime") (readIndices base s) with
  | some p => (((readIndices base s)[p]?).map IndexEntry.index).getD (readCurrentIndex base s)
  | none => readCurrentIndex base s

/-- The entry list after the update-or-append step, before eviction. -/
def insertedEntries (pt : String → Option Int) (nowStr : String) (data : Json)
    (base : String) (s : Store) : List IndexEntry :=
  let es := readIndices base s
  let newEntry := newEntryOf nowStr data (usedIdx pt data base s)
  match findDupIdx pt (jGetStr data "dataTime") es with
  | some p => es.set p newEntry
  | none => es ++ [newEntry]

/-- `set_wind_data_with_index` (redis_client.rs:290): read `current_index`
and the entry list, match a within-tolerance duplicate (update in place) or
append a fresh entry, write the value at `{base}:{index}`, evict entries
beyond `max_history` oldest-first and delete their backing data, store the
updated entry list, advance `current_index` only on append, and mirror the
value at the plain base key.  Returns the store and the index used. -/
def setWindDataWithIndex (size : Json → Nat) (pt : String → Option Int)
    (nowStr : String) (data : Json) (base : String) (maxH : Nat) (s : Store) :
    Except String (Store × Nat) :=
  let ci := readCurrentIndex base s
  let dup := findDupIdx pt (jGetStr data "dataTime") (readIndices base s)
  let used := usedIdx pt data base s
  let es1 := insertedEntries pt nowStr data base s
  (setWindData size data (BKey.indexed base used) s).bind (fun s1 =>
    let excess := es1.length - maxH
    (deleteOldEntries base (es1.take excess) s1).bind (fun s2 =>
      let s3 := setK s2 (RKey.indices base) (CVal.entries (es1.drop excess))
      let s4 := match dup with
        | some _ => s3
        | none => setK s3 (RKey.currentIndex base) (CVal.cnt (ci + 1))
      (setWindData size data (BKey.base base) s4).map (fun s5 => (s5, used))))

theorem setK_same (s : Store) (k : RKey) (v : CVal) : setK s k v k = some v := by
  simp [setK]

theorem setK_other (s : Store) (k k' : RKey) (v : CVal) (h : k' ≠ k) :
    setK s k v k' = s k' := by
  simp [setK, h]

theorem writeChunks_frame (bk : BKey) (cs : List (List Json)) :
    ∀ (i : Nat) (s : Store) (k : RKey), (∀ j, k ≠ RKey.chunk bk j) →
      writeChunks bk i cs s k = s k := by
  induction cs with
  | nil => intro i s k _; rfl
  | cons c cs ih =>
    intro i s k hk
    simp only [writeChunks]
    rw [ih (i + 1) _ k hk, setK_other _ _ _ _ (hk i)]

theorem writeChunks_below (bk : BKey) (cs : List (List Json)) :
    ∀ (i : Nat) (s : Store) (j : Nat), j < i →
      writeChunks bk i cs s (RKey.chunk bk j) = s (RKey.chunk bk j) := by
  induction cs with
  | nil => intro i s j _; rfl
  | cons c cs ih =>
    intro i s j hj
    simp only [writeChunks]
    rw [ih (i + 1) _ j (Nat.lt_succ_of_lt hj),
      setK_other _ _ _ _ (by simp; omega)]

theorem readChunks_writeChunks (bk : BKey) (cs : List (List Json)) :
    ∀ (i : Nat) (s : Store),
      readChunksFrom bk (writeChunks bk i cs s) i cs.length = .ok cs.flatten := by
  induction cs with
  | nil => intro i s; rfl
  | cons c cs ih =>
    intro i s
    simp only [writeChunks, List.length_cons, readChunksFrom]
    rw [writeChunks_below bk cs (i + 1) _ i (Nat.lt_succ_self i), setK_same]
    simp only [ih (i + 1) (setK s (RKey.chunk bk i) (CVal.js (Json.arr c))),
      Except.map, List.flatten_cons]

theorem chunkListF_flatten (k : Nat) (hk : 0 < k) :
    ∀ (fuel : Nat) (xs : List Json), xs.length ≤ fuel →
      (chunkListF k fuel xs).flatten = xs := by
  intro fuel
  induction fuel with
  | zero =>
    intro xs hxs
    have : xs = [] := List.eq_nil_of_length_eq_zero (Nat.le_zero.mp hxs)
    subst this; rfl
  | succ fuel ih =>
    intro xs hxs
    match xs with
    | [] => rfl
    | x :: xs' =>
      simp only [chunkListF, List.flatten_cons]
      have hlen : ((x :: xs').drop k).length ≤ fuel := by
        rw [List.length_drop]
        simp only [List.length_cons]
        simp only [List.length_cons] at hxs
        omega
      rw [ih ((x :: xs').drop k) hlen]
      exact List.take_append_drop k (x :: xs')

theorem chunkList_flatten (k : Nat) (hk : 0 < k) (xs : List Json) :
    (chunkList k xs).flatten = xs :=
  chunkListF_flatten k hk xs.length xs (Nat.le_refl _)

theorem getF_some_mem : ∀ (l : List (String × Json)) (key : String) (v : Json),
    getF l key = some v → ∃ p, p ∈ l ∧ p.1 = key := by
  intro l key v
  induction l with
  | nil => intro h; exact absurd h (by simp [getF])
  | cons p rest ih =>
    intro h
    by_cases hk : p.1 = key
    · exact ⟨p, List.mem_cons_self _ _, hk⟩
    · obtain ⟨q, hq, hq1⟩ := ih (by
        obtain ⟨k0, v0⟩ := p
        simpa [getF, hk] using h)
      exact ⟨q, List.mem_cons_of_mem _ hq, hq1⟩

theorem mapInsert_mapRemove :
    ∀ (l : List (String × Json)) (key : String) (v : Json),
      keysSorted l → getF l key = some v →
      mapInsert key v (mapRemove key l) = l := by
  intro l
  induction l with
  | nil => intro key v _ h; exact absurd h (by simp [getF])
  | cons p rest ih =>
    intro key v hs hget
    obtain ⟨k, w⟩ := p
    obtain ⟨hlt, hrest⟩ := hs
    by_cases hk : k = key
    · subst hk
      have hv : w = v := by simpa [getF] using hget
      subst hv
      simp only [mapRemove, if_pos rfl]
      match rest with
      | [] => rfl
      | (k', w') :: rest' =>
        have : k < k' := hlt (k', w') (List.mem_cons_self _ _)
        simp [mapInsert, this]
    · have hget' : getF rest key = some v := by simpa [getF, hk] using hget
      obtain ⟨q, hq, hq1⟩ := getF_some_mem rest key v hget'
      have hklt : k < key := hq1 ▸ hlt q hq
      have h1 : ¬key < k := not_lt.mpr (le_of_lt hklt)
      have h2 : ¬key = k := fun h => hk h.symm
      simp only [mapRemove, if_neg hk, mapInsert, if_neg h1, if_neg h2]
      rw [ih key v hrest hget']

/-- Claim C3: cache round-trip.  For every JSON value accepted by the write
path (at or under the ceiling, an oversized bare list, or an oversized
object with a `points` list field), reading the same key back through
`get_wind_data` returns the value that was written; whether the store was
chunked or direct is invisible to the reader, which uses the identical
call.  The key's chunk/meta slots are assumed clean (fresh key), and object
fields carry the `BTreeMap` sorted-keys invariant. -/
theorem cache_roundtrip (size : Json → Nat) (data : Json) (bk : BKey) (s s' : Store)
    (hsorted : ∀ fs, data = Json.obj fs → keysSorted fs)
    (hchunks : s (RKey.chunks bk) = none) (hmeta : s (RKey.meta bk) = none)
    (hw : setWindData size data bk s = .ok s') :
    getWindData bk s' = .ok (some data) := by
  unfold setWindData at hw
  by_cases hsz : size data > MAXSIZE
  · rw [if_pos hsz] at hw
    cases data with
    | null => exact Except.noConfusion hw
    | bool b => exact Except.noConfusion hw
    | num q => exact Except.noConfusion hw
    | str st => exact Except.noConfusion hw
    | arr xs =>
      simp only [storeChunkedArray] at hw
      split at hw
      · exact Except.noConfusion hw
      · rename_i hcs
        rw [Except.ok.injEq] at hw
        subst hw
        have h1 : writeChunks bk 0
            (chunkList (ceilDiv xs.length (ceilDiv (size (Json.arr xs)) MAXSIZE)) xs)
            (setK s (RKey.chunks bk)
              (CVal.cnt (chunkList (ceilDiv xs.length (ceilDiv (size (Json.arr xs)) MAXSIZE)) xs).length))
            (RKey.chunks bk) =
            some (CVal.cnt (chunkList (ceilDiv xs.length (ceilDiv (size (Json.arr xs)) MAXSIZE)) xs).length) := by
          rw [writeChunks_frame _ _ _ _ _ (by intro j; simp), setK_same]
        have h2 : writeChunks bk 0
            (chunkList (ceilDiv xs.length (ceilDiv (size (Json.arr xs)) MAXSIZE)) xs)
            (setK s (RKey.chunks bk)
              (CVal.cnt (chunkList (ceilDiv xs.length (ceilDiv (size (Json.arr xs)) MAXSIZE)) xs).length))
            (RKey.meta bk) = none := by
          rw [writeChunks_frame _ _ _ _ _ (by intro j; simp),
            setK_other _ _ _ _ (by simp), hmeta]
        have h3 := readChunks_writeChunks bk
          (chunkList (ceilDiv xs.length (ceilDiv (size (Json.arr xs)) MAXSIZE)) xs) 0
          (setK s (RKey.chunks bk)
            (CVal.cnt (chunkList (ceilDiv xs.length (ceilDiv (size (Json.arr xs)) MAXSIZE)) xs).length))
        simp only [getWindData, h1, h2, h3, Except.bind]
        rw [chunkList_flatten _ (Nat.pos_of_ne_zero hcs) xs]
    | obj fields =>
      cases hg : getF fields "points" with
      | none => simp only [hg] at hw; exact Except.noConfusion hw
      | some j =>
        cases j with
        | null => simp only [hg] at hw; exact Except.noConfusion hw
        | bool b => simp only [hg] at hw; exact Except.noConfusion hw
        | num q => simp only [hg] at hw; exact Except.noConfusion hw
        | str st => simp only [hg] at hw; exact Except.noConfusion hw
        | obj fs2 => simp only [hg] at hw; exact Except.noConfusion hw
        | arr pts =>
          simp only [hg, storeChunkedObject] at hw
          split at hw
          · exact Except.noConfusion hw
          · rename_i hcs
            rw [Except.ok.injEq] at hw
            subst hw
            have h1 : writeChunks bk 0
                (chunkList (ceilDiv pts.length (ceilDiv (size (Json.obj fields)) MAXSIZE)) pts)
                (setK (setK s (RKey.meta bk) (CVal.js (Json.obj (mapRemove "points" fields))))
                  (RKey.chunks bk)
                  (CVal.cnt (chunkList (ceilDiv pts.length (ceilDiv (size (Json.obj fields)) MAXSIZE)) pts).length))
                (RKey.chunks bk) =
                some (CVal.cnt (chunkList (ceilDiv pts.length (ceilDiv (size (Json.obj fields)) MAXSIZE)) pts).length) := by
              rw [writeChunks_frame _ _ _ _ _ (by intro j; simp), setK_same]
            have h2 : writeChunks bk 0
                (chunkList (ceilDiv pts.length (ceilDiv (size (Json.obj fields)) MAXSIZE)) pts)
                (setK (setK s (RKey.meta bk) (CVal.js (Json.obj (mapRemove "points" fields))))
                  (RKey.chunks bk)
                  (CVal.cnt (chunkList (ceilDiv pts.length (ceilDiv (size (Json.obj fields)) MAXSIZE)) pts).length))
                (RKey.meta bk) = some (CVal.js (Json.obj (mapRemove "points" fields))) := by
              rw [writeChunks_frame _ _ _ _ _ (by intro j; simp),
                setK_other _ _ _ _ (by simp), setK_same]
            have h3 := readChunks_writeChunks bk
              (chunkList (ceilDiv pts.length (ceilDiv (size (Json.obj fields)) MAXSIZE)) pts) 0
              (setK (setK s (RKey.meta bk) (CVal.js (Json.obj (mapRemove "points" fields))))
                (RKey.chunks bk)
                (CVal.cnt (chunkList (ceilDiv pts.length (ceilDiv (size (Json.obj fields)) MAXSIZE)) pts).length))
            simp only [getWindData, h1, h2, h3, Except.bind]
            rw [chunkList_flatten _ (Nat.pos_of_ne_zero hcs) pts,
              mapInsert_mapRemove fields "points" (Json.arr pts) (hsorted fields rfl) hg]
  · rw [if_neg hsz] at hw
    rw [Except.ok.injEq] at hw
    subst hw
    have h1 : setK s (RKey.plain bk) (CVal.js data) (RKey.chunks bk) = none := by
      rw [setK_other _ _ _ _ (by simp), hchunks]
    simp only [getWindData, h1, setK_same]

/-- The concatenation of the chunks actually present in the store, in index
order, for `n` chunk slots starting at `i` (the list the read loop builds
when some chunks are missing). -/
def foundChunks (bk : BKey) (s : Store) : Nat → Nat → List Json
  | _, 0 => []
  | i, n + 1 =>
    match s (RKey.chunk bk i) with
    | some (CVal.js (Json.arr xs)) => xs ++ foundChunks bk s (i + 1) n
    | _ => foundChunks bk s (i + 1) n

theorem readChunksFrom_skips (bk : BKey) (s : Store) :
    ∀ (n i : Nat),
      (∀ j, j < n → s (RKey.chunk bk (i + j)) = none ∨
        ∃ xs, s (RKey.chunk bk (i + j)) = some (CVal.js (Json.arr xs))) →
      readChunksFrom bk s i n = .ok (foundChunks bk s i n) := by
  intro n
  induction n with
  | zero => intro i _; rfl
  | succ n ih =>
    intro i h
    have hshift : ∀ j, j < n → s (RKey.chunk bk (i + 1 + j)) = none ∨
        ∃ xs, s (RKey.chunk bk (i + 1 + j)) = some (CVal.js (Json.arr xs)) := by
      intro j hj
      have := h (j + 1) (by omega)
      rwa [show i + (j + 1) = i + 1 + j by omega] at this
    have h0 := h 0 (Nat.succ_pos n)
    rw [Nat.add_zero] at h0
    rcases h0 with h0 | ⟨xs, h0⟩
    · simp only [readChunksFrom, foundChunks, h0]
      exact ih (i + 1) hshift
    · simp only [readChunksFrom, foundChunks, h0, ih (i + 1) hshift, Except.map]

/-- Claim C10: read-path chunk reassembly tolerates missing chunks silently.
If `{key}:chunks` reports `n` chunks but some `{key}:chunk:{i}` is absent,
`get_wind_data` skips it and returns the concatenation of the chunks found
(a shorter bare list, or an object whose `points` field has fewer
elements), rather than failing. -/
theorem get_wind_data_skips_missing_chunks (bk : BKey) (s : Store) (n : Nat)
    (hc : s (RKey.chunks bk) = some (CVal.cnt n))
    (hok : ∀ j, j < n → s (RKey.chunk bk j) = none ∨
      ∃ xs, s (RKey.chunk bk j) = some (CVal.js (Json.arr xs))) :
    (s (RKey.meta bk) = none →
      getWindData bk s = .ok (some (Json.arr (foundChunks bk s 0 n)))) ∧
    (∀ m, s (RKey.meta bk) = some (CVal.js (Json.obj m)) →
      getWindData bk s = .ok (some (Json.obj (mapInsert "points" (Json.arr (foundChunks bk s 0 n)) m)))) := by
  have hr := readChunksFrom_skips bk s n 0 (fun j hj => by
    have := hok j hj
    rwa [show j = 0 + j by omega] at this)
  constructor
  · intro hm
    simp only [getWindData, hc, hr, Except.bind, hm]
  · intro m hm
    simp only [getWindData, hc, hr, Except.bind, hm]

/-- The empty Redis database. -/
def emptyStore : Store := fun _ => none

def c10store : Store := fun k =>
  match k with
  | RKey.chunks (BKey.base "wind:points") => some (CVal.cnt 3)
  | RKey.chunk (BKey.base "wind:points") 0 => some (CVal.js (Json.arr [Json.num 1]))
  | RKey.chunk (BKey.base "wind:points") 2 => some (CVal.js (Json.arr [Json.num 3]))
  | _ => none

/-- Witness for C10: a 3-chunk key whose middle chunk is missing reads back
as the shortened concatenation of the two chunks found, without an error. -/
theorem get_wind_data_skips_missing_chunks_witness :
    c10store (RKey.chunks (BKey.base "wind:points")) = some (CVal.cnt 3) ∧
    c10store (RKey.chunk (BKey.base "wind:points") 1) = none ∧
    getWindData (BKey.base "wind:points") c10store =
      .ok (some (Json.arr [Json.num 1, Json.num 3])) := by
  refine ⟨rfl, rfl, ?_⟩
  have h := (get_wind_data_skips_missing_chunks (BKey.base "wind:points") c10store 3 rfl
    (fun j hj => by
      interval_cases j
      · exact Or.inr ⟨[Json.num 1], rfl⟩
      · exact Or.inl rfl
      · exact Or.inr ⟨[Json.num 3], rfl⟩)).1 rfl
  exact h.trans (by rfl)

def c3sz : Json → Nat := fun _ => 16777217

def c3data : Json := Json.arr [Json.num 1, Json.num 2]

def c3store : Store :=
  match setWindData c3sz c3data (BKey.base "wind:points") emptyStore with
  | .ok s' => s'
  | .error _ => emptyStore

/-- Witness for C3: an oversized two-element list (under a size function
reporting just over 2 ceilings) is written chunked and reads back equal. -/
theorem cache_roundtrip_witness :
    setWindData c3sz c3data (BKey.base "wind:points") emptyStore = .ok c3store ∧
    c3store (RKey.chunks (BKey.base "wind:points")) = some (CVal.cnt 2) ∧
    getWindData (BKey.base "wind:points") c3store = .ok (some c3data) := by
  refine ⟨rfl, rfl, ?_⟩
  exact cache_roundtrip c3sz c3data (BKey.base "wind:points") emptyStore c3store
    (fun fs h => by exact Json.noConfusion h) rfl rfl rfl

theorem delK_same (s : Store) (k : RKey) : delK s k k = none := by
  simp [delK]

theorem delK_other (s : Store) (k k' : RKey) (h : k' ≠ k) : delK s k k' = s k' := by
  simp [delK, h]

/-- `k` is none of the four physical keys backing the base key `bk`. -/
def notBackingKey (k : RKey) (bk : BKey) : Prop :=
  k ≠ RKey.plain bk ∧ k ≠ RKey.chunks bk ∧ k ≠ RKey.meta bk ∧ ∀ j, k ≠ RKey.chunk bk j

/-- Every physical key backing `bk` is absent. -/
def deletedAt (s : Store) (bk : BKey) : Prop :=
  s (RKey.plain bk) = none ∧ s (RKey.chunks bk) = none ∧
  s (RKey.meta bk) = none ∧ ∀ i, s (RKey.chunk bk i) = none

/-- The backing store of `bk` is in one of the two shapes `set_wind_data`
produces (plain, or chunked with an exact chunk count and no plain copy),
which is what `delete_data` relies on to erase it completely. -/
def backingWF (s : Store) (bk : BKey) : Prop :=
  (s (RKey.chunks bk) = none ∧ s (RKey.meta bk) = none ∧
    ∀ i, s (RKey.chunk bk i) = none) ∨
  (∃ n, s (RKey.chunks bk) = some (CVal.cnt n) ∧ s (RKey.plain bk) = none ∧
    ∀ i, n ≤ i → s (RKey.chunk bk i) = none)

theorem setWindData_frame (size : Json → Nat) (data : Json) (bk : BKey) (s s' : Store)
    (hw : setWindData size data bk s = .ok s') (k : RKey) (hk : notBackingKey k bk) :
    s' k = s k := by
  obtain ⟨hp, hc, hm, hch⟩ := hk
  unfold setWindData at hw
  by_cases hsz : size data > MAXSIZE
  · rw [if_pos hsz] at hw
    cases data with
    | null => exact Except.noConfusion hw
    | bool b => exact Except.noConfusion hw
    | num q => exact Except.noConfusion hw
    | str st => exact Except.noConfusion hw
    | arr xs =>
      simp only [storeChunkedArray] at hw
      split at hw
      · exact Except.noConfusion hw
      · rw [Except.ok.injEq] at hw
        subst hw
        rw [writeChunks_frame _ _ _ _ _ hch, setK_other _ _ _ _ hc]
    | obj fields =>
      cases hg : getF fields "points" with
      | none => simp only [hg] at hw; exact Except.noConfusion hw
      | some j =>
        cases j with
        | null => simp only [hg] at hw; exact Except.noConfusion hw
        | bool b => simp only [hg] at hw; exact Except.noConfusion hw
        | num q => simp only [hg] at hw; exact Except.noConfusion hw
        | str st => simp only [hg] at hw; exact Except.noConfusion hw
        | obj fs2 => simp only [hg] at hw; exact Except.noConfusion hw
        | arr pts =>
          simp only [hg, storeChunkedObject] at hw
          split at hw
          · exact Except.noConfusion hw
          · rw [Except.ok.injEq] at hw
            subst hw
            rw [writeChunks_frame _ _ _ _ _ hch, setK_other _ _ _ _ hc,
              setK_other _ _ _ _ hm]
  · rw [if_neg hsz] at hw
    rw [Except.ok.injEq] at hw
    subst hw
    exact setK_other _ _ _ _ hp

theorem delChunks_frame (bk : BKey) (n : Nat) :
    ∀ (i : Nat) (s : Store) (k : RKey),
      (∀ j, k ≠ RKey.chunk bk j) → delChunks bk i n s k = s k := by
  induction n with
  | zero => intro i s k _; rfl
  | succ n ih =>
    intro i s k hk
    simp only [delChunks]
    rw [ih (i + 1) _ k hk, delK_other _ _ _ (hk i)]

theorem delChunks_below (bk : BKey) (n : Nat) :
    ∀ (i : Nat) (s : Store) (j : Nat), j < i →
      delChunks bk i n s (RKey.chunk bk j) = s (RKey.chunk bk j) := by
  induction n with
  | zero => intro i s j _; rfl
  | succ n ih =>
    intro i s j hj
    simp only [delChunks]
    rw [ih (i + 1) _ j (by omega), delK_other _ _ _ (by simp; omega)]

theorem delChunks_hit (bk : BKey) (n : Nat) :
    ∀ (i : Nat) (s : Store) (j : Nat), i ≤ j → j < i + n →
      delChunks bk i n s (RKey.chunk bk j) = none := by
  induction n with
  | zero => intro i s j h1 h2; omega
  | succ n ih =>
    intro i s j h1 h2
    simp only [delChunks]
    by_cases hij : j = i
    · subst hij
      rw [delChunks_below bk n (j + 1) _ j (by omega), delK_same]
    · exact ih (i + 1) _ j (by omega) (by omega)

theorem delChunks_above (bk : BKey) (n : Nat) :
    ∀ (i : Nat) (s : Store) (j : Nat), i + n ≤ j →
      delChunks bk i n s (RKey.chunk bk j) = s (RKey.chunk bk j) := by
  induction n with
  | zero => intro i s j _; rfl
  | succ n ih =>
    intro i s j hj
    simp only [delChunks]
    rw [ih (i + 1) _ j (by omega), delK_other _ _ _ (by simp; omega)]

theorem deleteData_spec (bk : BKey) (s : Store) (h : backingWF s bk) :
    ∃ s', deleteData bk s = .ok s' ∧ deletedAt s' bk ∧
      ∀ k, notBackingKey k bk → s' k = s k := by
  rcases h with ⟨hc, hm, hch⟩ | ⟨n, hc, hp, habove⟩
  · refine ⟨delK s (RKey.plain bk), ?_, ⟨delK_same _ _, ?_, ?_, ?_⟩, ?_⟩
    · simp only [deleteData, hc]
    · rw [delK_other _ _ _ (by simp), hc]
    · rw [delK_other _ _ _ (by simp), hm]
    · intro i
      rw [delK_other _ _ _ (by simp), hch i]
    · intro k hk
      exact delK_other _ _ _ hk.1
  · refine ⟨delK (delK (delChunks bk 0 n s) (RKey.chunks bk)) (RKey.meta bk),
      ?_, ⟨?_, ?_, ?_, ?_⟩, ?_⟩
    · simp only [deleteData, hc]
    · rw [delK_other _ _ _ (by simp), delK_other _ _ _ (by simp),
        delChunks_frame _ _ _ _ _ (by intro j; simp), hp]
    · rw [delK_other _ _ _ (by simp), delK_same]
    · exact delK_same _ _
    · intro i
      rw [delK_other _ _ _ (by simp), delK_other _ _ _ (by simp)]
      by_cases hi : i < n
      · exact delChunks_hit bk n 0 s i (Nat.zero_le i) (by omega)
      · rw [delChunks_above bk n 0 s i (by omega)]
        exact habove i (by omega)
    · intro k hk
      obtain ⟨hk1, hk2, hk3, hk4⟩ := hk
      rw [delK_other _ _ _ hk3, delK_other _ _ _ hk2,
        delChunks_frame _ _ _ _ _ hk4]

theorem delChunks_le (bk : BKey) (n : Nat) :
    ∀ (i : Nat) (s : Store) (k : RKey),
      delChunks bk i n s k = none ∨ delChunks bk i n s k = s k := by
  induction n with
  | zero => intro i s k; exact Or.inr rfl
  | succ n ih =>
    intro i s k
    simp only [delChunks]
    rcases ih (i + 1) (delK s (RKey.chunk bk i)) k with h | h
    · exact Or.inl h
    · rw [h]
      by_cases hk : k = RKey.chunk bk i
      · subst hk
        exact Or.inl (delK_same _ _)
      · rw [delK_other _ _ _ hk]
        exact Or.inr rfl

theorem deleteData_none_mono (bk : BKey) (s s' : Store)
    (h : deleteData bk s = .ok s') (k : RKey) (hk : s k = none) : s' k = none := by
  unfold deleteData at h
  cases hcs : s (RKey.chunks bk) with
  | none =>
    rw [hcs] at h
    rw [Except.ok.injEq] at h
    subst h
    by_cases hkp : k = RKey.plain bk
    · subst hkp; exact delK_same _ _
    · rw [delK_other _ _ _ hkp, hk]
  | some cv =>
    cases cv with
    | js j => rw [hcs] at h; exact Except.noConfusion h
    | entries es => rw [hcs] at h; exact Except.noConfusion h
    | cnt n =>
      rw [hcs] at h
      rw [Except.ok.injEq] at h
      subst h
      by_cases hkm : k = RKey.meta bk
      · subst hkm; exact delK_same _ _
      rw [delK_other _ _ _ hkm]
      by_cases hkc : k = RKey.chunks bk
      · subst hkc; exact delK_same _ _
      rw [delK_other _ _ _ hkc]
      rcases delChunks_le bk n 0 s k with h | h
      · exact h
      · rw [h, hk]

theorem deleteOldEntries_none_mono (base : String) (old : List IndexEntry) :
    ∀ (s s' : Store), deleteOldEntries base old s = .ok s' →
      ∀ k, s k = none → s' k = none := by
  induction old with
  | nil =>
    intro s s' h k hk
    rw [show deleteOldEntries base [] s = .ok s from rfl, Except.ok.injEq] at h
    subst h; exact hk
  | cons e rest ih =>
    intro s s' h k hk
    simp only [deleteOldEntries] at h
    cases hd : deleteData (BKey.indexed base e.index) s with
    | error msg => rw [hd] at h; exact Except.noConfusion h
    | ok s1 =>
      rw [hd] at h
      exact ih s1 s' h k (deleteData_none_mono _ _ _ hd k hk)

theorem deletedAt_mono (base : String) (old : List IndexEntry) (s s' : Store)
    (h : deleteOldEntries base old s = .ok s') (bk : BKey) (hd : deletedAt s bk) :
    deletedAt s' bk := by
  obtain ⟨h1, h2, h3, h4⟩ := hd
  exact ⟨deleteOldEntries_none_mono base old s s' h _ h1,
    deleteOldEntries_none_mono base old s s' h _ h2,
    deleteOldEntries_none_mono base old s s' h _ h3,
    fun i => deleteOldEntries_none_mono base old s s' h _ (h4 i)⟩

theorem deleteOldEntries_spec (base : String) (old : List IndexEntry) :
    ∀ (s : Store), (∀ e ∈ old, backingWF s (BKey.indexed base e.index)) →
      ∃ s', deleteOldEntries base old s = .ok s' ∧
        (∀ e ∈ old, deletedAt s' (BKey.indexed base e.index)) ∧
        (∀ k, (∀ e ∈ old, notBackingKey k (BKey.indexed base e.index)) → s' k = s k) := by
  induction old with
  | nil =>
    intro s _
    exact ⟨s, rfl, by simp, fun k _ => rfl⟩
  | cons e rest ih =>
    intro s hwf
    obtain ⟨s1, hd1, hdel1, hfr1⟩ :=
      deleteData_spec (BKey.indexed base e.index) s (hwf e (List.mem_cons_self _ _))
    have hwf1 : ∀ e' ∈ rest, backingWF s1 (BKey.indexed base e'.index) := by
      intro e' he'
      by_cases heq : BKey.indexed base e'.index = BKey.indexed base e.index
      · rw [heq]
        obtain ⟨d1, d2, d3, d4⟩ := hdel1
        exact Or.inl ⟨d2, d3, d4⟩
      · have hwf' := hwf e' (List.mem_cons_of_mem _ he')
        rcases hwf' with ⟨w1, w2, w3⟩ | ⟨n, w1, w2, w3⟩
        · refine Or.inl ⟨?_, ?_, fun i => ?_⟩
          · rw [hfr1 _ ⟨by simp [heq], by simp [heq], by simp [heq], fun j => by simp [heq]⟩]
            exact w1
          · rw [hfr1 _ ⟨by simp [heq], by simp [heq], by simp [heq], fun j => by simp [heq]⟩]
            exact w2
          · rw [hfr1 _ ⟨by simp [heq], by simp [heq], by simp [heq], fun j => by simp [heq]⟩]
            exact w3 i
        · refine Or.inr ⟨n, ?_, ?_, fun i hi => ?_⟩
          · rw [hfr1 _ ⟨by simp [heq], by simp [heq], by simp [heq], fun j => by simp [heq]⟩]
            exact w1
          · rw [hfr1 _ ⟨by simp [heq], by simp [heq], by simp [heq], fun j => by simp [heq]⟩]
            exact w2
          · rw [hfr1 _ ⟨by simp [heq], by simp [heq], by simp [heq], fun j => by simp [heq]⟩]
            exact w3 i hi
    obtain ⟨s', hdrest, hdelrest, hfrrest⟩ := ih s1 hwf1
    refine ⟨s', ?_, ?_, ?_⟩
    · simp only [deleteOldEntries, hd1]
      exact hdrest
    · intro e' he'
      rcases List.mem_cons.mp he' with he' | he'
      · subst he'
        exact deletedAt_mono base rest s1 s' hdrest _ hdel1
      · exact hdelrest e' he'
    · intro k hk
      rw [hfrrest k (fun e' he' => hk e' (List.mem_cons_of_mem _ he')),
        hfr1 k (hk e (List.mem_cons_self _ _))]

/-- `k` is one of the four physical keys backing `bk`. -/
def isBackingKey (k : RKey) (bk : BKey) : Prop :=
  k = RKey.plain bk ∨ k = RKey.chunks bk ∨ k = RKey.meta bk ∨ ∃ i, k = RKey.chunk bk i

theorem backingWF_transfer (s s' : Store) (bk : BKey)
    (h : ∀ k, isBackingKey k bk → s' k = s k) (hwf : backingWF s bk) :
    backingWF s' bk := by
  rcases hwf with ⟨w1, w2, w3⟩ | ⟨n, w1, w2, w3⟩
  · exact Or.inl ⟨(h _ (Or.inr (Or.inl rfl))).trans w1,
      (h _ (Or.inr (Or.inr (Or.inl rfl)))).trans w2,
      fun i => (h _ (Or.inr (Or.inr (Or.inr ⟨i, rfl⟩)))).trans (w3 i)⟩
  · exact Or.inr ⟨n, (h _ (Or.inr (Or.inl rfl))).trans w1,
      (h _ (Or.inl rfl)).trans w2,
      fun i hi => (h _ (Or.inr (Or.inr (Or.inr ⟨i, rfl⟩)))).trans (w3 i hi)⟩

theorem deletedAt_transfer (s s' : Store) (bk : BKey)
    (h : ∀ k, isBackingKey k bk → s' k = s k) (hd : deletedAt s bk) :
    deletedAt s' bk := by
  obtain ⟨d1, d2, d3, d4⟩ := hd
  exact ⟨(h _ (Or.inl rfl)).trans d1,
    (h _ (Or.inr (Or.inl rfl))).trans d2,
    (h _ (Or.inr (Or.inr (Or.inl rfl)))).trans d3,
    fun i => (h _ (Or.inr (Or.inr (Or.inr ⟨i, rfl⟩)))).trans (d4 i)⟩

theorem notBackingKey_of_bkey_ne (k : RKey) (bk bk' : BKey)
    (hk : isBackingKey k bk) (hne : bk ≠ bk') : notBackingKey k bk' := by
  rcases hk with rfl | rfl | rfl | ⟨i, rfl⟩ <;>
    exact ⟨by simp [hne], by simp [hne], by simp [hne], fun j => by simp [hne]⟩

theorem setWindData_frame_bkey (size : Json → Nat) (data : Json) (bkW : BKey)
    (s s' : Store) (hw : setWindData size data bkW s = .ok s') (bk : BKey)
    (hne : bk ≠ bkW) : ∀ k, isBackingKey k bk → s' k = s k :=
  fun k hk => setWindData_frame size data bkW s s' hw k (notBackingKey_of_bkey_ne k bk bkW hk hne)

/-- Well-formedness of the pre-write state, as `set_wind_data_with_index`
itself maintains it: every listed entry's backing data has the shape left by
`set_wind_data`, entry indexes are below `current_index`, and the list is
within the history bound. -/
def idxStateWF (base : String) (maxH : Nat) (s : Store) : Prop :=
  (∀ e ∈ readIndices base s,
    backingWF s (BKey.indexed base e.index) ∧ e.index < readCurrentIndex base s) ∧
  (readIndices base s).length ≤ maxH

theorem setWindDataWithIndex_run (size : Json → Nat) (pt : String → Option Int)
    (nowStr : String) (data : Json) (base : String) (maxH : Nat) (s s' : Store) (r : Nat)
    (hres : setWindDataWithIndex size pt nowStr data base maxH s = .ok (s', r))
    (hwf : idxStateWF base maxH s) (hmax : 0 < maxH) :
    r = usedIdx pt data base s ∧
    readIndices base s' =
      (insertedEntries pt nowStr data base s).drop
        ((insertedEntries pt nowStr data base s).length - maxH) ∧
    readCurrentIndex base s' =
      (match findDupIdx pt (jGetStr data "dataTime") (readIndices base s) with
       | some _ => readCurrentIndex base s
       | none => readCurrentIndex base s + 1) ∧
    ∀ e ∈ (insertedEntries pt nowStr data base s).take
        ((insertedEntries pt nowStr data base s).length - maxH),
      deletedAt s' (BKey.indexed base e.index) := by
  obtain ⟨hwfE, hinv⟩ := hwf
  simp only [setWindDataWithIndex] at hres
  cases hw1 : setWindData size data (BKey.indexed base (usedIdx pt data base s)) s with
  | error m => rw [hw1] at hres; exact Except.noConfusion hres
  | ok s1 =>
    rw [hw1] at hres
    simp only [Except.bind] at hres
    -- well-formedness of the evicted entries' backing data, carried to s1
    have hsub : ∀ e ∈ (insertedEntries pt nowStr data base s).take
        ((insertedEntries pt nowStr data base s).length - maxH), e ∈ readIndices base s := by
      intro e he
      cases hdup : findDupIdx pt (jGetStr data "dataTime") (readIndices base s) with
      | some p =>
        rw [insertedEntries, hdup] at he
        simp only [List.length_set] at he
        have hx : (readIndices base s).length - maxH = 0 := by omega
        rw [hx] at he
        simp at he
      | none =>
        rw [insertedEntries, hdup] at he
        simp only [List.length_append, List.length_cons, List.length_nil] at he
        have hx : (readIndices base s).length + 1 - maxH ≤ (readIndices base s).length := by
          omega
        rw [List.take_append_of_le_length hx] at he
        exact List.take_subset _ _ he
    have hidxlt : ∀ e ∈ (insertedEntries pt nowStr data base s).take
        ((insertedEntries pt nowStr data base s).length - maxH),
        e.index < readCurrentIndex base s :=
      fun e he => (hwfE e (hsub e he)).2
    have hbkne : ∀ e ∈ (insertedEntries pt nowStr data base s).take
        ((insertedEntries pt nowStr data base s).length - maxH),
        BKey.indexed base e.index ≠ BKey.indexed base (usedIdx pt data base s) := by
      intro e he
      have hlt := hidxlt e he
      cases hdup : findDupIdx pt (jGetStr data "dataTime") (readIndices base s) with
      | some p =>
        exfalso
        rw [insertedEntries, hdup] at he
        simp only [List.length_set] at he
        have hx : (readIndices base s).length - maxH = 0 := by omega
        rw [hx] at he
        simp at he
      | none =>
        simp only [usedIdx, hdup] at hlt ⊢
        simp only [ne_eq, BKey.indexed.injEq, not_and]
        intro _
        omega
    have hwf1 : ∀ e ∈ (insertedEntries pt nowStr data base s).take
        ((insertedEntries pt nowStr data base s).length - maxH),
        backingWF s1 (BKey.indexed base e.index) := by
      intro e he
      exact backingWF_transfer s s1 _
        (setWindData_frame_bkey size data _ s s1 hw1 _ (hbkne e he))
        (hwfE e (hsub e he)).1
    obtain ⟨s2, hd2, hdel2, hfr2⟩ := deleteOldEntries_spec base
      ((insertedEntries pt nowStr data base s).take
        ((insertedEntries pt nowStr data base s).length - maxH)) s1 hwf1
    rw [hd2] at hres
    simp only [Except.bind] at hres
    cases hw5 : setWindData size data (BKey.base base)
        (match findDupIdx pt (jGetStr data "dataTime") (readIndices base s) with
         | some _ => setK s2 (RKey.indices base)
             (CVal.entries ((insertedEntries pt nowStr data base s).drop
               ((insertedEntries pt nowStr data base s).length - maxH)))
         | none => setK (setK s2 (RKey.indices base)
             (CVal.entries ((insertedEntries pt nowStr data base s).drop
               ((insertedEntries pt nowStr data base s).length - maxH))))
             (RKey.currentIndex base) (CVal.cnt (readCurrentIndex base s + 1))) with
    | error m =>
      rw [hw5] at hres
      exact Except.noConfusion hres
    | ok s5 =>
      rw [hw5] at hres
      simp only [Except.map, Except.ok.injEq, Prod.mk.injEq] at hres
      obtain ⟨hs5, hr⟩ := hres
      subst hs5
      refine ⟨hr.symm, ?_, ?_, ?_⟩
      · -- the stored entry list
        have h5 : s5 (RKey.indices base) =
            some (CVal.entries ((insertedEntries pt nowStr data base s).drop
              ((insertedEntries pt nowStr data base s).length - maxH))) := by
          rw [setWindData_frame size data _ _ _ hw5 _
            ⟨by simp, by simp, by simp, fun j => by simp⟩]
          cases hdup : findDupIdx pt (jGetStr data "dataTime") (readIndices base s) with
          | some p => simp only [hdup, setK_same]
          | none => simp only [hdup]; rw [setK_other _ _ _ _ (by simp), setK_same]
        simp only [readIndices, h5]
      · -- current_index
        have h5 : s5 (RKey.currentIndex base) =
            (match findDupIdx pt (jGetStr data "dataTime") (readIndices base s) with
             | some _ => s (RKey.currentIndex base)
             | none => some (CVal.cnt (readCurrentIndex base s + 1))) := by
          rw [setWindData_frame size data _ _ _ hw5 _
            ⟨by simp, by simp, by simp, fun j => by simp⟩]
          cases hdup : findDupIdx pt (jGetStr data "dataTime") (readIndices base s) with
          | some p =>
            simp only [hdup]
            rw [setK_other _ _ _ _ (by simp),
              hfr2 _ (fun e _ => ⟨by simp, by simp, by simp, fun j => by simp⟩),
              setWindData_frame size data _ _ _ hw1 _
                ⟨by simp, by simp, by simp, fun j => by simp⟩]
          | none =>
            simp only [hdup, setK_same]
        cases hdup : findDupIdx pt (jGetStr data "dataTime") (readIndices base s) with
        | some p =>
          rw [hdup] at h5
          simp only [readCurrentIndex, h5]
        | none =>
          rw [hdup] at h5
          simp only [readCurrentIndex, h5]
      · -- evicted entries fully deleted
        intro e he
        have hdel : deletedAt s2 (BKey.indexed base e.index) := hdel2 e he
        have hdel3 : deletedAt
            (match findDupIdx pt (jGetStr data "dataTime") (readIndices base s) with
             | some _ => setK s2 (RKey.indices base)
                 (CVal.entries ((insertedEntries pt nowStr data base s).drop
                   ((insertedEntries pt nowStr data base s).length - maxH)))
             | none => setK (setK s2 (RKey.indices base)
                 (CVal.entries ((insertedEntries pt nowStr data base s).drop
                   ((insertedEntries pt nowStr data base s).length - maxH))))
                 (RKey.currentIndex base) (CVal.cnt (readCurrentIndex base s + 1)))
            (BKey.indexed base e.index) := by
          cases hdup : findDupIdx pt (jGetStr data "dataTime") (readIndices base s) with
          | some p =>
            simp only [hdup]
            refine deletedAt_transfer s2 _ _ (fun k hk => ?_) hdel
            rcases hk with rfl | rfl | rfl | ⟨i, rfl⟩ <;> exact setK_other _ _ _ _ (by simp)
          | none =>
            simp only [hdup]
            refine deletedAt_transfer s2 _ _ (fun k hk => ?_) hdel
            rcases hk with rfl | rfl | rfl | ⟨i, rfl⟩ <;>
              rw [setK_other _ _ _ _ (by simp), setK_other _ _ _ _ (by simp)]
        exact deletedAt_transfer _ s5 _
          (setWindData_frame_bkey size data _ _ s5 hw5 _ (by simp)) hdel3

/-- Claim C1: indexed-write dedup.  If the entry list contains an entry
whose `dataTime` is within 2 hours of the new value's `dataTime`, the write
reuses that (first matching) entry's index, overwrites the entry's fields
in place, does not advance `current_index`, and the history length does not
grow; otherwise a new entry carrying the current index is appended and
`current_index` advances by one.  The pre-state satisfies the well-formed
invariant the write itself maintains. -/
theorem indexed_write_dedupe (size : Json → Nat) (pt : String → Option Int)
    (nowStr : String) (data : Json) (base : String) (maxH : Nat) (s s' : Store) (r : Nat)
    (hwf : idxStateWF base maxH s) (hmax : 0 < maxH)
    (hres : setWindDataWithIndex size pt nowStr data base maxH s = .ok (s', r)) :
    (∀ p e, findDupIdx pt (jGetStr data "dataTime") (readIndices base s) = some p →
      (readIndices base s)[p]? = some e →
      r = e.index ∧
      readIndices base s' = (readIndices base s).set p (newEntryOf nowStr data e.index) ∧
      readCurrentIndex base s' = readCurrentIndex base s ∧
      (readIndices base s').length = (readIndices base s).length) ∧
    (findDupIdx pt (jGetStr data "dataTime") (readIndices base s) = none →
      r = readCurrentIndex base s ∧
      readIndices base s' =
        (readIndices base s).drop ((readIndices base s).length + 1 - maxH) ++
          [newEntryOf nowStr data (readCurrentIndex base s)] ∧
      readCurrentIndex base s' = readCurrentIndex base s + 1) := by
  obtain ⟨hr, hidx, hci, _⟩ :=
    setWindDataWithIndex_run size pt nowStr data base maxH s s' r hres hwf hmax
  constructor
  · intro p e hdup he
    have hused : usedIdx pt data base s = e.index := by
      simp only [usedIdx, hdup, he]
      rfl
    have hE : insertedEntries pt nowStr data base s =
        (readIndices base s).set p (newEntryOf nowStr data e.index) := by
      simp only [insertedEntries, hdup, hused]
    have hx : (insertedEntries pt nowStr data base s).length - maxH = 0 := by
      rw [hE, List.length_set]
      have := hwf.2
      omega
    refine ⟨hr.trans hused, ?_, ?_, ?_⟩
    · rw [hidx, hx, List.drop_zero, hE]
    · rw [hci, hdup]
    · rw [hidx, hx, List.drop_zero, hE, List.length_set]
  · intro hdup
    have hused : usedIdx pt data base s = readCurrentIndex base s := by
      simp only [usedIdx, hdup]
    have hE : insertedEntries pt nowStr data base s =
        readIndices base s ++ [newEntryOf nowStr data (readCurrentIndex base s)] := by
      simp only [insertedEntries, hdup, hused]
    have hxle : (insertedEntries pt nowStr data base s).length - maxH ≤
        (readIndices base s).length := by
      rw [hE]
      simp only [List.length_append, List.length_cons, List.length_nil]
      omega
    refine ⟨hr.trans hused, ?_, ?_⟩
    · rw [hidx, hE, List.drop_append_of_le_length (by
        rw [hE] at hxle
        simpa using hxle)]
      have hlen : (readIndices base s ++
          [newEntryOf nowStr data (readCurrentIndex base s)]).length - maxH =
          (readIndices base s).length + 1 - maxH := by
        simp
      rw [hlen]
    · rw [hci, hdup]

theorem deleteData_frame (bk : BKey) (s s' : Store) (h : deleteData bk s = .ok s')
    (k : RKey) (hk : notBackingKey k bk) : s' k = s k := by
  obtain ⟨hk1, hk2, hk3, hk4⟩ := hk
  cases hcs : s (RKey.chunks bk) with
  | none =>
    simp only [deleteData, hcs, Except.ok.injEq] at h
    subst h
    exact delK_other _ _ _ hk1
  | some cv =>
    cases cv with
    | js j =>
      simp only [deleteData, hcs] at h
      exact Except.noConfusion h
    | entries es =>
      simp only [deleteData, hcs] at h
      exact Except.noConfusion h
    | cnt n =>
      simp only [deleteData, hcs, Except.ok.injEq] at h
      subst h
      rw [delK_other _ _ _ hk3, delK_other _ _ _ hk2, delChunks_frame _ _ _ _ _ hk4]

theorem deleteData_chunks_none (bk : BKey) (s s' : Store)
    (h : deleteData bk s = .ok s') : s' (RKey.chunks bk) = none := by
  cases hcs : s (RKey.chunks bk) with
  | none =>
    simp only [deleteData, hcs, Except.ok.injEq] at h
    subst h
    rw [delK_other _ _ _ (by simp), hcs]
  | some cv =>
    cases cv with
    | js j =>
      simp only [deleteData, hcs] at h
      exact Except.noConfusion h
    | entries es =>
      simp only [deleteData, hcs] at h
      exact Except.noConfusion h
    | cnt n =>
      simp only [deleteData, hcs, Except.ok.injEq] at h
      subst h
      rw [delK_other _ _ _ (by simp), delK_same]

theorem deleteOldEntries_frame (base : String) (old : List IndexEntry) :
    ∀ (s s' : Store), deleteOldEntries base old s = .ok s' →
      ∀ k, (∀ e ∈ old, notBackingKey k (BKey.indexed base e.index)) → s' k = s k := by
  induction old with
  | nil =>
    intro s s' h k _
    rw [show deleteOldEntries base [] s = .ok s from rfl, Except.ok.injEq] at h
    subst h
    rfl
  | cons e rest ih =>
    intro s s' h k hk
    simp only [deleteOldEntries] at h
    cases hd : deleteData (BKey.indexed base e.index) s with
    | error m => rw [hd] at h; exact Except.noConfusion h
    | ok s1 =>
      rw [hd] at h
      rw [ih s1 s' h k (fun e' he' => hk e' (List.mem_cons_of_mem _ he')),
        deleteData_frame _ _ _ hd k (hk e (List.mem_cons_self _ _))]

theorem deleteOldEntries_chunks_none (base : String) (old : List IndexEntry) :
    ∀ (s s' : Store), deleteOldEntries base old s = .ok s' →
      ∀ e ∈ old, s' (RKey.chunks (BKey.indexed base e.index)) = none := by
  induction old with
  | nil => intro s s' _ e he; exact absurd he (by simp)
  | cons e0 rest ih =>
    intro s s' h e he
    simp only [deleteOldEntries] at h
    cases hd : deleteData (BKey.indexed base e0.index) s with
    | error m => rw [hd] at h; exact Except.noConfusion h
    | ok s1 =>
      rw [hd] at h
      rcases List.mem_cons.mp he with he | he
      · subst he
        exact deleteOldEntries_none_mono base rest s1 s' h _
          (deleteData_chunks_none _ _ _ hd)
      · exact ih s1 s' h e he

theorem deleteOldEntries_one (base : String) (old : List IndexEntry) :
    ∀ (s s' : Store), deleteOldEntries base old s = .ok s' →
      ∀ e ∈ old, backingWF s (BKey.indexed base e.index) →
        deletedAt s' (BKey.indexed base e.index) := by
  induction old with
  | nil => intro s s' _ e he; exact absurd he (by simp)
  | cons e0 rest ih =>
    intro s s' h e he hwf
    simp only [deleteOldEntries] at h
    cases hd : deleteData (BKey.indexed base e0.index) s with
    | error m => rw [hd] at h; exact Except.noConfusion h
    | ok s1 =>
      rw [hd] at h
      rcases List.mem_cons.mp he with he | he
      · subst he
        obtain ⟨s1', hd', hdel', _⟩ := deleteData_spec _ s hwf
        rw [hd] at hd'
        rw [Except.ok.injEq] at hd'
        subst hd'
        exact deletedAt_mono base rest s1 s' h _ hdel'
      · by_cases heq : BKey.indexed base e.index = BKey.indexed base e0.index
        · have hwf0 := hwf
          rw [heq] at hwf0
          obtain ⟨s1', hd', hdel', _⟩ := deleteData_spec _ s hwf0
          rw [hd] at hd'
          rw [Except.ok.injEq] at hd'
          subst hd'
          have hwf1 : backingWF s1 (BKey.indexed base e.index) := by
            rw [heq]
            obtain ⟨d1, d2, d3, d4⟩ := hdel'
            exact Or.inl ⟨d2, d3, d4⟩
          exact ih s1 s' h e he hwf1
        · have hwf1 : backingWF s1 (BKey.indexed base e.index) :=
            backingWF_transfer s s1 _
              (fun k hk => deleteData_frame _ _ _ hd k
                (notBackingKey_of_bkey_ne k _ _ hk heq)) hwf
          exact ih s1 s' h e he hwf1

/-- Decomposition of a successful `set_wind_data_with_index` run, with no
assumption on the pre-state: the intermediate stores exist, the stored
entry list is the post-insert list minus its oldest excess entries, and
the final store agrees with the post-eviction store on every key the
remaining writes do not touch. -/
theorem setWindDataWithIndex_run2 (size : Json → Nat) (pt : String → Option Int)
    (nowStr : String) (data : Json) (base : String) (maxH : Nat) (s s' : Store) (r : Nat)
    (hres : setWindDataWithIndex size pt nowStr data base maxH s = .ok (s', r)) :
    ∃ s1 s2,
      setWindData size data (BKey.indexed base (usedIdx pt data base s)) s = .ok s1 ∧
      deleteOldEntries base ((insertedEntries pt nowStr data base s).take
        ((insertedEntries pt nowStr data base s).length - maxH)) s1 = .ok s2 ∧
      r = usedIdx pt data base s ∧
      readIndices base s' =
        (insertedEntries pt nowStr data base s).drop
          ((insertedEntries pt nowStr data base s).length - maxH) ∧
      (∀ k, notBackingKey k (BKey.base base) → k ≠ RKey.indices base →
        k ≠ RKey.currentIndex base → s' k = s2 k) := by
  simp only [setWindDataWithIndex] at hres
  cases hw1 : setWindData size data (BKey.indexed base (usedIdx pt data base s)) s with
  | error m => rw [hw1] at hres; exact Except.noConfusion hres
  | ok s1 =>
    rw [hw1] at hres
    simp only [Except.bind] at hres
    cases hd2 : deleteOldEntries base ((insertedEntries pt nowStr data base s).take
        ((insertedEntries pt nowStr data base s).length - maxH)) s1 with
    | error m => rw [hd2] at hres; exact Except.noConfusion hres
    | ok s2 =>
      rw [hd2] at hres
      simp only [Except.bind] at hres
      cases hw5 : setWindData size data (BKey.base base)
          (match findDupIdx pt (jGetStr data "dataTime") (readIndices base s) with
           | some _ => setK s2 (RKey.indices base)
               (CVal.entries ((insertedEntries pt nowStr data base s).drop
                 ((insertedEntries pt nowStr data base s).length - maxH)))
           | none => setK (setK s2 (RKey.indices base)
               (CVal.entries ((insertedEntries pt nowStr data base s).drop
                 ((insertedEntries pt nowStr data base s).length - maxH))))
               (RKey.currentIndex base) (CVal.cnt (readCurrentIndex base s + 1))) with
      | error m =>
        rw [hw5] at hres
        exact Except.noConfusion hres
      | ok s5 =>
        rw [hw5] at hres
        simp only [Except.map, Except.ok.injEq, Prod.mk.injEq] at hres
        obtain ⟨hs5, hr⟩ := hres
        subst hs5
        refine ⟨s1, s2, rfl, hd2, hr.symm, ?_, ?_⟩
        · have h5 : s5 (RKey.indices base) =
              some (CVal.entries ((insertedEntries pt nowStr data base s).drop
                ((insertedEntries pt nowStr data base s).length - maxH))) := by
            rw [setWindData_frame size data _ _ _ hw5 _
              ⟨by simp, by simp, by simp, fun j => by simp⟩]
            cases hdup : findDupIdx pt (jGetStr data "dataTime") (readIndices base s) with
            | some p => simp only [hdup, setK_same]
            | none => simp only [hdup]; rw [setK_other _ _ _ _ (by simp), setK_same]
          simp only [readIndices, h5]
        · intro k hk1 hk2 hk3
          rw [setWindData_frame size data _ _ _ hw5 k hk1]
          cases hdup : findDupIdx pt (jGetStr data "dataTime") (readIndices base s) with
          | some p =>
            simp only [hdup]
            rw [setK_other _ _ _ _ hk2]
          | none =>
            simp only [hdup]
            rw [setK_other _ _ _ _ hk3, setK_other _ _ _ _ hk2]

/-- Claim C2 (amended): after every indexed write with bound `maxH ≥ 1` on
a within-bound state whose entry indexes are below `current_index`, the
stored entry list has length at most `maxH` and equals the post-insert
list minus exactly its oldest `n − maxH` entries (by list position).
For each removed entry, `delete_data` erases the single storage form its
chunk-count key indicates: the chunk-count key is always cleared, and the
entry's backing data (plain key, or chunk keys, count and meta) is fully
deleted whenever its backing store is in one of the two shapes
`set_wind_data` writes; stale keys of the other form, left behind by an
earlier same-index duplicate update that changed the storage shape,
survive the eviction (see `indexed_write_eviction_counterexample`). -/
theorem indexed_write_eviction (size : Json → Nat) (pt : String → Option Int)
    (nowStr : String) (data : Json) (base : String) (maxH : Nat) (s s' : Store) (r : Nat)
    (hmax : 0 < maxH)
    (hidx : ∀ e ∈ readIndices base s, e.index < readCurrentIndex base s)
    (hinv : (readIndices base s).length ≤ maxH)
    (hres : setWindDataWithIndex size pt nowStr data base maxH s = .ok (s', r)) :
    (readIndices base s').length ≤ maxH ∧
    readIndices base s' =
      (insertedEntries pt nowStr data base s).drop
        ((insertedEntries pt nowStr data base s).length - maxH) ∧
    (∀ e ∈ (insertedEntries pt nowStr data base s).take
        ((insertedEntries pt nowStr data base s).length - maxH),
      s' (RKey.chunks (BKey.indexed base e.index)) = none) ∧
    (∀ e ∈ (insertedEntries pt nowStr data base s).take
        ((insertedEntries pt nowStr data base s).length - maxH),
      backingWF s (BKey.indexed base e.index) →
      deletedAt s' (BKey.indexed base e.index)) := by
  obtain ⟨s1, s2, hw1, hd2, hr, hidxlist, hframe⟩ :=
    setWindDataWithIndex_run2 size pt nowStr data base maxH s s' r hres
  have hsub : ∀ e ∈ (insertedEntries pt nowStr data base s).take
      ((insertedEntries pt nowStr data base s).length - maxH), e ∈ readIndices base s := by
    intro e he
    cases hdup : findDupIdx pt (jGetStr data "dataTime") (readIndices base s) with
    | some p =>
      rw [insertedEntries, hdup] at he
      simp only [List.length_set] at he
      have hx : (readIndices base s).length - maxH = 0 := by omega
      rw [hx] at he
      simp at he
    | none =>
      rw [insertedEntries, hdup] at he
      simp only [List.length_append, List.length_cons, List.length_nil] at he
      have hx : (readIndices base s).length + 1 - maxH ≤ (readIndices base s).length := by
        omega
      rw [List.take_append_of_le_length hx] at he
      exact List.take_subset _ _ he
  have hbkne : ∀ e ∈ (insertedEntries pt nowStr data base s).take
      ((insertedEntries pt nowStr data base s).length - maxH),
      BKey.indexed base e.index ≠ BKey.indexed base (usedIdx pt data base s) := by
    intro e he
    have hlt := hidx e (hsub e he)
    cases hdup : findDupIdx pt (jGetStr data "dataTime") (readIndices base s) with
    | some p =>
      exfalso
      rw [insertedEntries, hdup] at he
      simp only [List.length_set] at he
      have hx : (readIndices base s).length - maxH = 0 := by omega
      rw [hx] at he
      simp at he
    | none =>
      simp only [usedIdx, hdup] at hlt ⊢
      simp only [ne_eq, BKey.indexed.injEq, not_and]
      intro _
      omega
  refine ⟨?_, hidxlist, ?_, ?_⟩
  · rw [hidxlist, List.length_drop]
    omega
  · intro e he
    rw [hframe _ ⟨by simp, by simp, by simp, fun j => by simp⟩ (by simp) (by simp)]
    exact deleteOldEntries_chunks_none base _ s1 s2 hd2 e he
  · intro e he hwfE
    have hwf1 : backingWF s1 (BKey.indexed base e.index) :=
      backingWF_transfer s s1 _
        (setWindData_frame_bkey size data _ s s1 hw1 _ (hbkne e he)) hwfE
    have hdel2 : deletedAt s2 (BKey.indexed base e.index) :=
      deleteOldEntries_one base _ s1 s2 hd2 e he hwf1
    refine deletedAt_transfer s2 s' _ (fun k hk => ?_) hdel2
    rcases hk with rfl | rfl | rfl | ⟨i, rfl⟩ <;>
      exact hframe _ ⟨by simp, by simp, by simp, fun j => by simp⟩ (by simp) (by simp)

def c1sz : Json → Nat := fun _ => 0

def c1pt : String → Option Int := fun d =>
  if d = "A" then some 0
  else if d = "B" then some 3600000
  else if d = "C" then some 10800000
  else none

def c1dataA : Json := Json.obj [("dataTime", Json.str "A")]

def c1dataB : Json := Json.obj [("dataTime", Json.str "B")]

def c1dataC : Json := Json.obj [("dataTime", Json.str "C")]

def c1s1 : Store :=
  match setWindDataWithIndex c1sz c1pt "t1" c1dataA "wind:points" 20 emptyStore with
  | .ok (st, _) => st
  | .error _ => emptyStore

def c1s2 : Store :=
  match setWindDataWithIndex c1sz c1pt "t2" c1dataB "wind:points" 20 c1s1 with
  | .ok (st, _) => st
  | .error _ => emptyStore

def c1s3 : Store :=
  match setWindDataWithIndex c1sz c1pt "t2" c1dataC "wind:points" 20 c1s1 with
  | .ok (st, _) => st
  | .error _ => emptyStore

theorem c1s1_wf : idxStateWF "wind:points" 20 c1s1 := by
  constructor
  · intro e he
    have h : readIndices "wind:points" c1s1 = [newEntryOf "t1" c1dataA 0] := rfl
    rw [h, List.mem_singleton] at he
    subst he
    exact ⟨Or.inl ⟨rfl, rfl, fun i => rfl⟩, by decide⟩
  · decide

/-- Witness for C1: after one write with `dataTime` at epoch 0, a second
write 1 hour later updates the single entry in place (no growth, index
reused, `current_index` still 1), while a second write 3 hours later
appends (2 entries, `current_index` 2). -/
theorem indexed_write_dedupe_witness :
    findDupIdx c1pt (jGetStr c1dataB "dataTime") (readIndices "wind:points" c1s1) = some 0 ∧
    (readIndices "wind:points" c1s2).length = 1 ∧
    readCurrentIndex "wind:points" c1s2 = 1 ∧
    findDupIdx c1pt (jGetStr c1dataC "dataTime") (readIndices "wind:points" c1s1) = none ∧
    (readIndices "wind:points" c1s3).length = 2 ∧
    readCurrentIndex "wind:points" c1s3 = 2 := by
  have h := (indexed_write_dedupe c1sz c1pt "t2" c1dataB "wind:points" 20 c1s1 c1s2 0
    c1s1_wf (by decide) rfl).1 0 (newEntryOf "t1" c1dataA 0) rfl rfl
  have h2 := (indexed_write_dedupe c1sz c1pt "t2" c1dataC "wind:points" 20 c1s1 c1s3 1
    c1s1_wf (by decide) rfl).2 rfl
  exact ⟨rfl, h.2.2.2.trans rfl, h.2.2.1.trans rfl, rfl,
    (congrArg List.length h2.2.1).trans rfl, h2.2.2.trans rfl⟩

def c2s1 : Store :=
  match setWindDataWithIndex c1sz c1pt "t1" c1dataA "wind:points" 1 emptyStore with
  | .ok (st, _) => st
  | .error _ => emptyStore

def c2s2 : Store :=
  match setWindDataWithIndex c1sz c1pt "t2" c1dataC "wind:points" 1 c2s1 with
  | .ok (st, _) => st
  | .error _ => emptyStore

theorem c2s1_wf : idxStateWF "wind:points" 1 c2s1 := by
  constructor
  · intro e he
    have h : readIndices "wind:points" c2s1 = [newEntryOf "t1" c1dataA 0] := rfl
    rw [h, List.mem_singleton] at he
    subst he
    exact ⟨Or.inl ⟨rfl, rfl, fun i => rfl⟩, by decide⟩
  · decide

/-- Witness for C2: with `maxHistory = 1`, appending a second (3 hours
apart) snapshot evicts the oldest entry, the stored list is exactly the
newest entry, and — its backing store being in the plain shape — the
evicted entry's backing data is fully deleted. -/
theorem indexed_write_eviction_witness :
    (readIndices "wind:points" c2s2).length ≤ 1 ∧
    readIndices "wind:points" c2s2 = [newEntryOf "t2" c1dataC 1] ∧
    deletedAt c2s2 (BKey.indexed "wind:points" 0) := by
  have h := indexed_write_eviction c1sz c1pt "t2" c1dataC "wind:points" 1 c2s1 c2s2 1
    (by decide) (fun e he => (c2s1_wf.1 e he).2) c2s1_wf.2 rfl
  refine ⟨h.1, h.2.1.trans rfl, ?_⟩
  have hd := h.2.2.2 (newEntryOf "t1" c1dataA 0) (by
    show newEntryOf "t1" c1dataA 0 ∈ List.take _ _
    exact List.mem_singleton.mpr rfl) (Or.inl ⟨rfl, rfl, fun i => rfl⟩)
  exact hd

/-- Size function for the eviction counterexample: any object carrying a
`points` field counts as just over 16 MB, everything else as 0 bytes. -/
def cexSz : Json → Nat
  | Json.obj fs =>
    match getF fs "points" with
    | some _ => 16777217
    | none => 0
  | _ => 0

def cexDataA : Json := Json.obj [("dataTime", Json.str "A")]

def cexDataB : Json :=
  Json.obj [("dataTime", Json.str "B"), ("points", Json.arr [Json.num 1])]

def cexDataC : Json := Json.obj [("dataTime", Json.str "C")]

def cexS1 : Store :=
  match setWindDataWithIndex cexSz c1pt "t1" cexDataA "wind:points" 1 emptyStore with
  | .ok (st, _) => st
  | .error _ => emptyStore

def cexS2 : Store :=
  match setWindDataWithIndex cexSz c1pt "t2" cexDataB "wind:points" 1 cexS1 with
  | .ok (st, _) => st
  | .error _ => emptyStore

def cexS3 : Store :=
  match setWindDataWithIndex cexSz c1pt "t3" cexDataC "wind:points" 1 cexS2 with
  | .ok (st, _) => st
  | .error _ => emptyStore

/-- Counterexample for C2 as originally claimed: starting from the empty
store, a small plain write, a within-2h duplicate update that has grown
past the chunking threshold (so the same index switches from the plain
shape to the chunked shape without clearing the plain key), and a third
write 3 hours later that evicts that entry, leave the evicted entry's
stale plain key — the first snapshot — still readable after eviction:
its backing data is not fully deleted. -/
theorem indexed_write_eviction_counterexample :
    setWindDataWithIndex cexSz c1pt "t1" cexDataA "wind:points" 1 emptyStore =
      .ok (cexS1, 0) ∧
    setWindDataWithIndex cexSz c1pt "t2" cexDataB "wind:points" 1 cexS1 =
      .ok (cexS2, 0) ∧
    setWindDataWithIndex cexSz c1pt "t3" cexDataC "wind:points" 1 cexS2 =
      .ok (cexS3, 1) ∧
    readIndices "wind:points" cexS3 = [newEntryOf "t3" cexDataC 1] ∧
    newEntryOf "t2" cexDataB 0 ∈
      (insertedEntries c1pt "t3" cexDataC "wind:points" cexS2).take
        ((insertedEntries c1pt "t3" cexDataC "wind:points" cexS2).length - 1) ∧
    cexS3 (RKey.plain (BKey.indexed "wind:points" 0)) = some (CVal.js cexDataA) := by
  refine ⟨rfl, rfl, rfl, rfl, ?_, rfl⟩
  show newEntryOf "t2" cexDataB 0 ∈ List.take _ _
  exact List.mem_singleton.mpr rfl

/-- `str::trim` on a character list. -/
def ctrim (l : List Char) : List Char :=
  ((l.dropWhile Char.isWhitespace).reverse.dropWhile Char.isWhitespace).reverse

/-- `str::split(pred)`: empty tokens are kept (and filtered by the caller). -/
def splitByPred (p : Char → Bool) : List Char → List (List Char)
  | [] => [[]]
  | c :: rest =>
    match splitByPred p rest with
    | [] => [[]]
    | t :: ts => if p c then [] :: t :: ts else (c :: t) :: ts

/-- `str::split_once(c)`. -/
def splitOnceC (c : Char) : List Char → Option (List Char × List Char)
  | [] => none
  | x :: rest =>
    if x == c then some ([], rest)
    else (splitOnceC c rest).map (fun p => (x :: p.1, p.2))

/-- `str::trim_start_matches(',')`. -/
def dropLeadingCommas (l : List Char) : List Char := l.dropWhile (· == ',')

/-- Split at the first character satisfying `p`, returning the prefix and,
when found, the suffix after it. -/
def splitFirst (p : Char → Bool) : List Char → List Char × Option (List Char)
  | [] => ([], none)
  | c :: rest =>
    if p c then ([], some rest)
    else
      match splitFirst p rest with
      | (a, b) => (c :: a, b)

def allDigits (l : List Char) : Bool := l.all Char.isDigit

def natVal (l : List Char) : Nat := l.foldl (fun acc c => acc * 10 + (c.toNat - 48)) 0

/-- `str::parse::<f64>` on a decimal literal, modelled exactly over `ℚ`:
optional sign, digits with at most one dot (at least one digit), optional
signed decimal exponent.  (Textual `inf`/`NaN` literals are not modelled;
they do not occur in the tabular numeric payload.) -/
def parseQ (l : List Char) : Option ℚ :=
  let sl : ℚ × List Char :=
    match l with
    | '-' :: rest => (-1, rest)
    | '+' :: rest => (1, rest)
    | _ => (1, l)
  let me := splitFirst (fun c => c == 'e' || c == 'E') sl.2
  let ifp := splitFirst (fun c => c == '.') me.1
  let fp := ifp.2.getD []
  if allDigits ifp.1 && allDigits fp && decide (0 < ifp.1.length + fp.length) then
    let base : ℚ := (natVal ifp.1 : ℚ) + (natVal fp : ℚ) / (10 : ℚ) ^ fp.length
    match me.2 with
    | none => some (sl.1 * base)
    | some ('-' :: ds) =>
      if allDigits ds && !ds.isEmpty then some (sl.1 * base / (10 : ℚ) ^ natVal ds) else none
    | some ('+' :: ds) =>
      if allDigits ds && !ds.isEmpty then some (sl.1 * base * (10 : ℚ) ^ natVal ds) else none
    | some ds =>
      if allDigits ds && !ds.isEmpty then some (sl.1 * base * (10 : ℚ) ^ natVal ds) else none
  else none

/-- `extract_numbers` (opendap_parser.rs:283): split on commas/whitespace,
parse the non-empty tokens, keep the successes. -/
def extractNumbers (l : List Char) : List ℚ :=
  (splitByPred (fun c => c == ',' || c.isWhitespace) l).filterMap (fun t =>
    let t' := ctrim t
    if t'.isEmpty then none else parseQ t')

/-- `extract_numbers_from_indexed_line` (opendap_parser.rs:271): strip the
leading `[i][j]` tuple (falling back to the whole line when the shape is
unexpected) and extract the numbers. -/
def extractNumsIndexed (line : List Char) : List ℚ :=
  let stripped :=
    match splitOnceC ']' line with
    | none => line
    | some p1 =>
      match splitOnceC ']' (ctrim (dropLeadingCommas p1.2)) with
      | none => line
      | some p2 => ctrim (dropLeadingCommas p2.2)
  extractNumbers stripped

/-- `ParsedWindData` (opendap_parser.rs:5). -/
structure ParsedWindData where
  lat_values : List ℚ
  lon_values : List ℚ
  u_data : List ℚ
  v_data : List ℚ
deriving DecidableEq

/-- The line-scanner state of `parse_opendap_ascii`. -/
structure PState where
  latV : List ℚ
  lonV : List ℚ
  uV : List ℚ
  vV : List ℚ
  currentVar : Option String
  inData : Bool
  pLat : Bool
  pLon : Bool
  pU : Bool
  pV : Bool

def initPState : PState :=
  { latV := [], lonV := [], uV := [], vV := []
    currentVar := none, inData := false
    pLat := false, pLon := false, pU := false, pV := false }

/-- One iteration of the line loop of `parse_opendap_ascii`
(opendap_parser.rs:37-127). -/
def parseLine (st : PState) (line : List Char) : PState :=
  let t := ctrim line
  if "lat,".toList.isPrefixOf t || "lat[".toList.isPrefixOf t then
    if !st.pLat then { st with currentVar := some "lat", inData := true, pLat := true }
    else { st with currentVar := none, inData := false }
  else if "lon,".toList.isPrefixOf t || "lon[".toList.isPrefixOf t then
    if !st.pLon then { st with currentVar := some "lon", inData := true, pLon := true }
    else { st with currentVar := none, inData := false }
  else if "ugrd10m,".toList.isPrefixOf t then
    if !st.pU then { st with currentVar := some "ugrd", inData := false, pU := true }
    else { st with currentVar := none, inData := false }
  else if "vgrd10m,".toList.isPrefixOf t then
    if !st.pV then { st with currentVar := some "vgrd", inData := false, pV := true }
    else { st with currentVar := none, inData := false }
  else if "time,".toList.isPrefixOf t || "time[".toList.isPrefixOf t then
    { st with currentVar := none, inData := false }
  else if t.isEmpty then st
  else if (match t with | '[' :: _ => true | _ => false) then
    let nums := extractNumsIndexed t
    let st1 := { st with inData := true }
    match st.currentVar with
    | some v =>
      if v = "ugrd" then { st1 with uV := st1.uV ++ nums }
      else if v = "vgrd" then { st1 with vV := st1.vV ++ nums }
      else st1
    | none => st1
  else if st.inData && !(match t with | c :: _ => c.isAlpha | [] => false) then
    let nums := extractNumbers t
    match st.currentVar with
    | some v =>
      if v = "lat" then { st with latV := st.latV ++ nums }
      else if v = "lon" then { st with lonV := st.lonV ++ nums }
      else if v = "ugrd" then { st with uV := st.uV ++ nums }
      else if v = "vgrd" then { st with vV := st.vV ++ nums }
      else st
    | none => st
  else st

/-- `parse_opendap_ascii` (opendap_parser.rs:20), over the response's lines:
scan every line, then fail hard if any parsed axis or plane is empty. -/
def parseOpendapAscii (lines : List (List Char)) : Except String ParsedWindData :=
  let st := lines.foldl parseLine initPState
  if st.latV.isEmpty || st.lonV.isEmpty || st.uV.isEmpty || st.vV.isEmpty then
    .error "Invalid parsed data"
  else
    .ok ⟨st.latV, st.lonV, st.uV, st.vV⟩

/-- An upstream response whose `ugrd10m`/`vgrd10m` planes hold 3 values but
whose axes have 2 latitudes and 2 longitudes (3 ≠ 2 × 2). -/
def ex5 : List (List Char) :=
  ["ugrd10m, [1][2][3]".toList,
   "[0][0], 1.0, 2.0, 3.0".toList,
   "vgrd10m, [1][2][3]".toList,
   "[0][0], 1.0, 2.0, 3.0".toList,
   "lat, [2]".toList,
   "10.0, 20.0".toList,
   "lon, [2]".toList,
   "30.0, 40.0".toList]

/-- Counterexample to claim C5 as stated: a response whose plane length
violates `len(plane) = len(lat) × len(lon)` parses successfully (the code
only rejects empty axes/planes; it never checks the product), so the
violation is not a hard parse failure. -/
theorem parse_opendap_len_counterexample :
    (parseOpendapAscii ex5).map
        (fun g => decide (g.u_data.length = g.lat_values.length * g.lon_values.length)) =
      .ok false := by
  rfl

/-- Claim C5 (amended): every successful parse yields non-empty latitude,
longitude, u and v lists; a response leaving any of them empty is a hard
parse failure.  (The stronger `len(plane) = len(lat) × len(lon)` invariant
of the claim is refuted by `parse_opendap_len_counterexample`.) -/
theorem parse_opendap_nonempty (lines : List (List Char)) (g : ParsedWindData)
    (h : parseOpendapAscii lines = .ok g) :
    g.lat_values ≠ [] ∧ g.lon_values ≠ [] ∧ g.u_data ≠ [] ∧ g.v_data ≠ [] := by
  simp only [parseOpendapAscii] at h
  split at h
  · exact Except.noConfusion h
  · rename_i hcond
    rw [Except.ok.injEq] at h
    subst h
    simp only [Bool.or_eq_true, List.isEmpty_iff, not_or] at hcond
    exact ⟨hcond.1.1.1, hcond.1.1.2, hcond.1.2, hcond.2⟩

def ex5g : ParsedWindData :=
  match parseOpendapAscii ex5 with
  | .ok g => g
  | .error _ => ⟨[], [], [], []⟩

/-- Witness for the amended C5 applied at a concrete successful parse. -/
theorem parse_opendap_nonempty_witness :
    parseOpendapAscii ex5 = .ok ex5g ∧ ex5g.lat_values ≠ [] :=
  ⟨rfl, (parse_opendap_nonempty ex5 ex5g rfl).1⟩

/-- The row-interleaving loop of the antimeridian stitch
(opendap_downloader.rs:375-393), for one data plane: for each latitude row,
emit the west row then the east row.  (The source pushes u and v in the
same loop; per-plane this is the same sequence of pushes.)  Out-of-range
indexing defaults to 0 where Rust would panic; the stitch theorem's length
hypotheses make every access in range. -/
def combinePlane (numLats w1 w2 : Nat) (west east : List ℚ) : List ℚ :=
  (List.range numLats).flatMap (fun latIdx =>
    (List.range w1).map (fun i => west.getD (latIdx * w1 + i) 0) ++
    (List.range w2).map (fun i => east.getD (latIdx * w2 + i) 0))

/-- The antimeridian stitch of `download_wind_data_for_run`
(opendap_downloader.rs:322-402, `needs_wrap` branch): latitude axis taken
from the west response, west longitudes remapped by subtracting 360 and
concatenated with the east longitudes, u and v planes interleaved row by
row. -/
def stitchWind (west east : ParsedWindData) : ParsedWindData :=
  { lat_values := west.lat_values
    lon_values := west.lon_values.map (fun lon => lon - 360) ++ east.lon_values
    u_data := combinePlane west.lat_values.length west.lon_values.length
      east.lon_values.length west.u_data east.u_data
    v_data := combinePlane west.lat_values.length west.lon_values.length
      east.lon_values.length west.v_data east.v_data }

/-- Row `y` of a row-major plane of width `w`. -/
def planeRow (w y : Nat) (xs : List ℚ) : List ℚ := (xs.drop (y * w)).take w

theorem range_map_getD (xs : List ℚ) (k : Nat) :
    ∀ w, k + w ≤ xs.length →
      (List.range w).map (fun i => xs.getD (k + i) 0) = (xs.drop k).take w := by
  intro w
  induction w with
  | zero => intro _; simp
  | succ w ih =>
    intro h
    rw [List.range_succ, List.map_append, ih (by omega), List.take_succ]
    simp only [List.map_cons, List.map_nil]
    congr 1
    have hxlt : k + w < xs.length := by omega
    rw [List.getD_eq_getElem?_getD, List.getElem?_drop, List.getElem?_eq_getElem hxlt]
    rfl

theorem flatMap_range'_drop (f : Nat → List ℚ) (c : Nat)
    (hc : ∀ i, (f i).length = c) :
    ∀ (y n s : Nat), y ≤ n →
      ((List.range' s n).flatMap f).drop (y * c) = (List.range' (s + y) (n - y)).flatMap f := by
  intro y
  induction y with
  | zero => intro n s _; simp
  | succ y ih =>
    intro n s hy
    match n, hy with
    | n + 1, hy =>
      rw [List.range'_succ]
      simp only [List.flatMap_cons]
      have hlen : (f s).length = c := hc s
      have hdrop : (y + 1) * c = (f s).length + y * c := by rw [hlen]; ring
      rw [hdrop, List.drop_append, ih n (s + 1) (by omega),
        show s + 1 + y = s + (y + 1) by omega,
        show n + 1 - (y + 1) = n - y by omega]

theorem flatMap_row (f : Nat → List ℚ) (c : Nat) (hc : ∀ i, (f i).length = c)
    (n y : Nat) (hy : y < n) :
    (((List.range n).flatMap f).drop (y * c)).take c = f y := by
  rw [show List.range n = List.range' 0 n from List.range_eq_range' n,
    flatMap_range'_drop f c hc y n 0 (by omega)]
  match hm : n - y, (by omega : 1 ≤ n - y) with
  | m + 1, _ =>
    rw [List.range'_succ]
    simp only [List.flatMap_cons, Nat.zero_add]
    rw [show c = (f y).length from (hc y).symm, List.take_left]

/-- Claim C4: antimeridian stitching.  Given a west half of longitude width
`w1` and an east half of width `w2` over the same latitude axis (planes
row-major of the matching sizes), the stitched grid has longitude width
`w1 + w2`, keeps the west latitude axis unchanged, remaps west longitudes
by subtracting 360 before the east longitudes, and each latitude row of
each stitched plane is the west row followed by the east row. -/
theorem stitch_spec (west east : ParsedWindData)
    (hu1 : west.u_data.length = west.lat_values.length * west.lon_values.length)
    (hv1 : west.v_data.length = west.lat_values.length * west.lon_values.length)
    (hu2 : east.u_data.length = west.lat_values.length * east.lon_values.length)
    (hv2 : east.v_data.length = west.lat_values.length * east.lon_values.length) :
    (stitchWind west east).lon_values.length =
      west.lon_values.length + east.lon_values.length ∧
    (stitchWind west east).lat_values = west.lat_values ∧
    (stitchWind west east).lon_values =
      west.lon_values.map (fun lon => lon - 360) ++ east.lon_values ∧
    ∀ y, y < west.lat_values.length →
      planeRow (west.lon_values.length + east.lon_values.length) y
          (stitchWind west east).u_data =
        planeRow west.lon_values.length y west.u_data ++
          planeRow east.lon_values.length y east.u_data ∧
      planeRow (west.lon_values.length + east.lon_values.length) y
          (stitchWind west east).v_data =
        planeRow west.lon_values.length y west.v_data ++
          planeRow east.lon_values.length y east.v_data := by
  refine ⟨by simp [stitchWind], rfl, rfl, ?_⟩
  intro y hy
  have key : ∀ (u e : List ℚ),
      u.length = west.lat_values.length * west.lon_values.length →
      e.length = west.lat_values.length * east.lon_values.length →
      planeRow (west.lon_values.length + east.lon_values.length) y
          (combinePlane west.lat_values.length west.lon_values.length
            east.lon_values.length u e) =
        planeRow west.lon_values.length y u ++ planeRow east.lon_values.length y e := by
    intro u e hu he
    unfold planeRow combinePlane
    rw [flatMap_row _ (west.lon_values.length + east.lon_values.length)
      (fun i => by simp) west.lat_values.length y hy]
    rw [range_map_getD u (y * west.lon_values.length) west.lon_values.length
      (by
        have h1 : (y + 1) * west.lon_values.length ≤
            west.lat_values.length * west.lon_values.length :=
          Nat.mul_le_mul_right _ (by omega)
        rw [Nat.succ_mul] at h1
        rw [hu]
        exact h1),
      range_map_getD e (y * east.lon_values.length) east.lon_values.length
      (by
        have h1 : (y + 1) * east.lon_values.length ≤
            west.lat_values.length * east.lon_values.length :=
          Nat.mul_le_mul_right _ (by omega)
        rw [Nat.succ_mul] at h1
        rw [he]
        exact h1)]
  exact ⟨key west.u_data east.u_data hu1 hu2, key west.v_data east.v_data hv1 hv2⟩

def c4west : ParsedWindData :=
  { lat_values := [10, 20], lon_values := [350, 351]
    u_data := [1, 2, 3, 4], v_data := [5, 6, 7, 8] }

def c4east : ParsedWindData :=
  { lat_values := [10, 20], lon_values := [0]
    u_data := [9, 10], v_data := [11, 12] }

/-- Witness for C4: a 2×2 west half and a 2×1 east half stitch into width
3, row 0 of the u plane is west row 0 followed by east row 0, and the west
longitudes are remapped by −360. -/
theorem stitch_spec_witness :
    c4west.u_data.length = c4west.lat_values.length * c4west.lon_values.length ∧
    planeRow 3 0 (stitchWind c4west c4east).u_data = [1, 2, 9] ∧
    planeRow 3 1 (stitchWind c4west c4east).u_data = [3, 4, 10] ∧
    (stitchWind c4west c4east).lon_values = [-10, -9, 0] := by
  have h := stitch_spec c4west c4east rfl rfl rfl rfl
  refine ⟨rfl, ?_, ?_, ?_⟩
  · exact ((h.2.2.2 0 (by decide)).1).trans (by simp [planeRow, c4west, c4east])
  · exact ((h.2.2.2 1 (by decide)).1).trans (by simp [planeRow, c4west, c4east])
  · rw [h.2.2.1]
    show List.map (fun lon => lon - 360) [(350 : ℚ), 351] ++ [(0 : ℚ)] = [-10, -9, 0]
    norm_num

/-- `struct ForecastTarget` (scheduler.rs:21). -/
structure ForecastTarget where
  run_age : Int
  offset : Int
deriving DecidableEq

def desiredHoursBack : List Int := [0, 3, 6, 9, 12, 15, 18, 21]

def runAgeCandidates : List Int := [6, 12, 18, 24]

/-- The validity test of the inner loop of
`calculate_historical_forecast_targets` (scheduler.rs:315). -/
def validOffset (ra hb : Int) : Bool :=
  let off := ra - hb
  (0 ≤ off) && (off % 3 == 0) && (off ≤ 24)

/-- `calculate_historical_forecast_targets` (scheduler.rs:303): for each
`hours_back` in 0,3,…,21, push a target with the first run age in
{6,12,18,24} whose offset is valid (none if no run age fits). -/
def calculateHistoricalForecastTargets : List ForecastTarget :=
  desiredHoursBack.flatMap (fun hb =>
    match runAgeCandidates.find? (fun ra => validOffset ra hb) with
    | some ra => [{ run_age := ra, offset := ra - hb }]
    | none => [])

/-- Claim C7: the full-history target list has exactly 8 targets, one per
`hoursBack` in {0,3,…,21} in that order; each target's `runAge` is the
smallest element of {6,12,18,24} whose offset `runAge − hoursBack` is
non-negative, a multiple of 3 and at most 24, and its `offset` is exactly
that difference. -/
theorem historical_targets_spec :
    calculateHistoricalForecastTargets =
      [{ run_age := 6, offset := 6 }, { run_age := 6, offset := 3 },
       { run_age := 6, offset := 0 }, { run_age := 12, offset := 3 },
       { run_age := 12, offset := 0 }, { run_age := 18, offset := 3 },
       { run_age := 18, offset := 0 }, { run_age := 24, offset := 3 }] ∧
    calculateHistoricalForecastTargets.length = 8 ∧
    (∀ i, i < 8 →
      (calculateHistoricalForecastTargets.getD i { run_age := 0, offset := 0 }).offset =
        (calculateHistoricalForecastTargets.getD i { run_age := 0, offset := 0 }).run_age -
          desiredHoursBack.getD i 0 ∧
      validOffset
        (calculateHistoricalForecastTargets.getD i { run_age := 0, offset := 0 }).run_age
        (desiredHoursBack.getD i 0) = true ∧
      ∀ ra ∈ runAgeCandidates,
        ra < (calculateHistoricalForecastTargets.getD i { run_age := 0, offset := 0 }).run_age →
        validOffset ra (desiredHoursBack.getD i 0) = false) := by
  decide

/-- Witness for C7 instantiated at the first target. -/
theorem historical_targets_spec_witness :
    (0 : Nat) < 8 ∧
    (calculateHistoricalForecastTargets.getD 0 { run_age := 0, offset := 0 }).offset = 6 := by
  refine ⟨by decide, ?_⟩
  have h := (historical_targets_spec.2.2 0 (by decide)).1
  rw [h]
  decide

def MSPERHOUR : Nat := 3600000

def MSPERDAY : Nat := 86400000

/-- `ForecastRun` (opendap_downloader.rs:12).  Time is epoch milliseconds;
since the snapped run time has minutes/seconds/nanos zeroed, the `(date,
hour)` pair of the source is in bijection with `fullDate`, and
`hours_waited: f64` (hours) is represented by the exact wait in
milliseconds (`hours_waited ≥ 5.5` ⟺ `hoursWaitedMs ≥ 19800000`). -/
structure ForecastRun where
  fullDate : Nat
  hoursWaitedMs : Nat
deriving DecidableEq

/-- Round a time down to the nearest synoptic hour {00,06,12,18} of its day
(opendap_downloader.rs:50-70). -/
def snapToSynoptic (t : Nat) : Nat :=
  let utcHours := (t / MSPERHOUR) % 24
  let forecastHour := if utcHours ≥ 18 then 18
    else if utcHours ≥ 12 then 12
    else if utcHours ≥ 6 then 6
    else 0
  t - t % MSPERDAY + forecastHour * MSPERHOUR

/-- The 8 candidate runs, 6 hours apart, snapped down
(opendap_downloader.rs:45-89). -/
def genRuns (now : Nat) : List ForecastRun :=
  (List.range 8).map (fun i =>
    let ft := snapToSynoptic (now - i * 6 * MSPERHOUR)
    { fullDate := ft, hoursWaitedMs := now - ft })

/-- `dedup_by(|a, b| a.date == b.date && a.hour == b.hour)`: `(date, hour)`
equality is `fullDate` equality (see `ForecastRun`). -/
def sameDateHour (a b : ForecastRun) : Bool := a.fullDate == b.fullDate

def dedupGo (prev : ForecastRun) : List ForecastRun → List ForecastRun
  | [] => []
  | b :: rest => if sameDateHour b prev then dedupGo prev rest else b :: dedupGo b rest

/-- `Vec::dedup_by`: remove all but the first of consecutive equal runs. -/
def dedupRuns : List ForecastRun → List ForecastRun
  | [] => []
  | a :: rest => a :: dedupGo a rest

/-- `hours_waited >= 5.5` (opendap_downloader.rs:97). -/
def isReady (r : ForecastRun) : Bool := 19800000 ≤ r.hoursWaitedMs

def readyRank (r : ForecastRun) : Nat := if isReady r then 1 else 0

/-- The sort comparator of opendap_downloader.rs:95-106 as a `≤` test
(`cmp a b ≠ Greater`): readiness first, then descending recency. -/
def runLE (a b : ForecastRun) : Bool :=
  if readyRank a = readyRank b then decide (b.fullDate ≤ a.fullDate)
  else decide (readyRank b < readyRank a)

/-- `get_available_forecast_runs` (opendap_downloader.rs:40): generate,
dedup, sort by readiness then recency. -/
def getAvailableForecastRuns (now : Nat) : List ForecastRun :=
  (dedupRuns (genRuns now)).mergeSort runLE

theorem runLE_total (a b : ForecastRun) : (runLE a b || runLE b a) = true := by
  simp only [runLE]
  by_cases h : readyRank a = readyRank b
  · simp [h]
    omega
  · have h' : ¬readyRank b = readyRank a := fun hh => h hh.symm
    simp [h, h']

theorem runLE_trans (a b c : ForecastRun) (h1 : runLE a b = true)
    (h2 : runLE b c = true) : runLE a c = true := by
  simp only [runLE] at h1 h2 ⊢
  by_cases hab : readyRank a = readyRank b <;>
    by_cases hbc : readyRank b = readyRank c <;>
      by_cases hac : readyRank a = readyRank c <;>
        simp_all <;> omega

theorem snap_hour (t : Nat) :
    (snapToSynoptic t / MSPERHOUR) % 24 = 0 ∨ (snapToSynoptic t / MSPERHOUR) % 24 = 6 ∨
    (snapToSynoptic t / MSPERHOUR) % 24 = 12 ∨ (snapToSynoptic t / MSPERHOUR) % 24 = 18 := by
  simp only [snapToSynoptic, MSPERHOUR, MSPERDAY]
  split_ifs <;> omega

theorem snap_mono (t1 t2 : Nat) (h : t1 ≤ t2) : snapToSynoptic t1 ≤ snapToSynoptic t2 := by
  simp only [snapToSynoptic, MSPERHOUR, MSPERDAY]
  split_ifs <;> omega

theorem dedupGo_subset (r : ForecastRun) :
    ∀ (l : List ForecastRun) (prev : ForecastRun), r ∈ dedupGo prev l → r ∈ l := by
  intro l
  induction l with
  | nil => intro prev h; exact absurd h (by simp [dedupGo])
  | cons b rest ih =>
    intro prev h
    simp only [dedupGo] at h
    by_cases hb : sameDateHour b prev = true
    · rw [if_pos hb] at h
      exact List.mem_cons_of_mem _ (ih prev h)
    · rw [if_neg hb] at h
      rcases List.mem_cons.mp h with h | h
      · exact h ▸ List.mem_cons_self _ _
      · exact List.mem_cons_of_mem _ (ih b h)

theorem dedupRuns_subset (r : ForecastRun) (l : List ForecastRun)
    (h : r ∈ dedupRuns l) : r ∈ l := by
  match l with
  | [] => exact absurd h (by simp [dedupRuns])
  | a :: rest =>
    simp only [dedupRuns] at h
    rcases List.mem_cons.mp h with h | h
    · exact h ▸ List.mem_cons_self _ _
    · exact List.mem_cons_of_mem _ (dedupGo_subset r rest a h)

theorem dedupGo_length (l : List ForecastRun) :
    ∀ prev, (dedupGo prev l).length ≤ l.length := by
  induction l with
  | nil => intro prev; exact Nat.le_refl _
  | cons b rest ih =>
    intro prev
    simp only [dedupGo]
    by_cases hb : sameDateHour b prev = true
    · rw [if_pos hb]
      exact Nat.le_succ_of_le (ih prev)
    · rw [if_neg hb]
      simpa using ih b

theorem dedupGo_strict (l : List ForecastRun) :
    ∀ prev, (∀ x ∈ l, x.fullDate ≤ prev.fullDate) →
      List.Pairwise (fun a b => b.fullDate ≤ a.fullDate) l →
      (∀ x ∈ dedupGo prev l, x.fullDate < prev.fullDate) ∧
      List.Pairwise (fun a b => b.fullDate < a.fullDate) (dedupGo prev l) := by
  induction l with
  | nil => intro prev _ _; exact ⟨by simp [dedupGo], by simp [dedupGo]⟩
  | cons b rest ih =>
    intro prev hle hp
    simp only [dedupGo]
    rcases List.pairwise_cons.mp hp with ⟨hb, hrest⟩
    by_cases hsame : sameDateHour b prev = true
    · rw [if_pos hsame]
      exact ih prev (fun x hx => hle x (List.mem_cons_of_mem _ hx)) hrest
    · rw [if_neg hsame]
      have hbne : b.fullDate ≠ prev.fullDate := by
        simpa [sameDateHour] using hsame
      have hblt : b.fullDate < prev.fullDate :=
        lt_of_le_of_ne (hle b (List.mem_cons_self _ _)) hbne
      obtain ⟨hall, hpw⟩ := ih b hb hrest
      refine ⟨?_, ?_⟩
      · intro x hx
        rcases List.mem_cons.mp hx with hx | hx
        · exact hx ▸ hblt
        · exact lt_trans (hall x hx) hblt
      · exact List.pairwise_cons.mpr ⟨hall, hpw⟩

theorem dedupRuns_strict (l : List ForecastRun)
    (hp : List.Pairwise (fun a b => b.fullDate ≤ a.fullDate) l) :
    List.Pairwise (fun a b => b.fullDate < a.fullDate) (dedupRuns l) := by
  match l with
  | [] => simp [dedupRuns]
  | a :: rest =>
    simp only [dedupRuns]
    rcases List.pairwise_cons.mp hp with ⟨ha, hrest⟩
    obtain ⟨hall, hpw⟩ := dedupGo_strict rest a ha hrest
    exact List.pairwise_cons.mpr ⟨hall, hpw⟩

theorem genRuns_antitone (now : Nat) :
    List.Pairwise (fun a b => b.fullDate ≤ a.fullDate) (genRuns now) := by
  unfold genRuns
  refine List.Pairwise.map _ ?_ (List.pairwise_lt_range 8)
  intro i j hij
  exact snap_mono _ _ (by
    have : i * 6 * MSPERHOUR ≤ j * 6 * MSPERHOUR := by
      have := Nat.mul_le_mul_right (6 * MSPERHOUR) (Nat.le_of_lt hij)
      simpa [Nat.mul_assoc] using this
    omega)

theorem dedupRuns_length (l : List ForecastRun) : (dedupRuns l).length ≤ l.length := by
  match l with
  | [] => exact Nat.le_refl _
  | a :: rest => simpa [dedupRuns] using dedupGo_length rest a

/-- Claim C6: Run Selector, current mode.  The candidate list is ordered so
that no not-yet-ready candidate (`hoursSinceRun < 5.5`, i.e. wait below
19 800 000 ms) appears before a ready one; within a readiness bucket
candidates are in descending run-time order; every candidate is snapped to
a synoptic hour in {00,06,12,18}; `(date, hour)` duplicates are removed
(all run times distinct); and the list stems from 8 runs spaced 6 h apart,
so it has at most 8 elements.  `now` is at least 42 h past the epoch so
that the 8 subtractions stay in range. -/
theorem run_selector_current_spec (now : Nat) (hnow : 42 * MSPERHOUR ≤ now) :
    List.Pairwise (fun a b => ¬(isReady a = false ∧ isReady b = true))
      (getAvailableForecastRuns now) ∧
    List.Pairwise (fun a b => isReady a = isReady b → b.fullDate ≤ a.fullDate)
      (getAvailableForecastRuns now) ∧
    List.Pairwise (fun a b => a.fullDate ≠ b.fullDate) (getAvailableForecastRuns now) ∧
    (∀ r ∈ getAvailableForecastRuns now,
      (r.fullDate / MSPERHOUR) % 24 = 0 ∨ (r.fullDate / MSPERHOUR) % 24 = 6 ∨
      (r.fullDate / MSPERHOUR) % 24 = 12 ∨ (r.fullDate / MSPERHOUR) % 24 = 18) ∧
    (getAvailableForecastRuns now).length ≤ 8 := by
  have hsorted := List.sorted_mergeSort runLE_trans runLE_total
    (dedupRuns (genRuns now))
  have hperm := List.mergeSort_perm (dedupRuns (genRuns now)) runLE
  refine ⟨?_, ?_, ?_, ?_, ?_⟩
  · refine hsorted.imp ?_
    intro a b h
    rintro ⟨ha, hb⟩
    simp [runLE, readyRank, ha, hb] at h
  · refine hsorted.imp ?_
    intro a b h heq
    rw [runLE, if_pos (by rw [readyRank, readyRank, heq])] at h
    exact of_decide_eq_true h
  · have hstrict := dedupRuns_strict _ (genRuns_antitone now)
    have hne : List.Pairwise (fun a b : ForecastRun => a.fullDate ≠ b.fullDate)
        (dedupRuns (genRuns now)) :=
      hstrict.imp (fun h => (ne_of_lt h).symm)
    exact (hperm.pairwise_iff (fun h => h.symm)).mpr hne
  · intro r hr
    have hr2 : r ∈ dedupRuns (genRuns now) := hperm.subset hr
    have hr3 : r ∈ genRuns now := dedupRuns_subset r _ hr2
    simp only [genRuns, List.mem_map] at hr3
    obtain ⟨i, _, rfl⟩ := hr3
    exact snap_hour _
  · rw [show (getAvailableForecastRuns now).length = (dedupRuns (genRuns now)).length
      from hperm.length_eq]
    calc (dedupRuns (genRuns now)).length ≤ (genRuns now).length := dedupRuns_length _
      _ = 8 := by simp [genRuns]

/-- Witness for C6 at a concrete clock value. -/
theorem run_selector_current_spec_witness :
    42 * MSPERHOUR ≤ 86425200001 ∧ (getAvailableForecastRuns 86425200001).length ≤ 8 :=
  ⟨by decide, (run_selector_current_spec 86425200001 (by decide)).2.2.2.2⟩

/-- `f64` values as the codec uses them: exact rationals plus the IEEE
special values that the degenerate normalization produces.  Finite
arithmetic is modelled exactly; special-value propagation follows
IEEE-754 (only +0 is modelled). -/
inductive F64 where
  | fin (q : ℚ)
  | nan
  | inf
  | ninf
deriving DecidableEq

def F64.sub : F64 → F64 → F64
  | .fin a, .fin b => .fin (a - b)
  | .nan, _ => .nan
  | _, .nan => .nan
  | .inf, .inf => .nan
  | .inf, _ => .inf
  | .ninf, .ninf => .nan
  | .ninf, _ => .ninf
  | .fin _, .inf => .ninf
  | .fin _, .ninf => .inf

def F64.div : F64 → F64 → F64
  | .nan, _ => .nan
  | _, .nan => .nan
  | .fin a, .fin b =>
    if b = 0 then
      if a = 0 then .nan else if 0 < a then .inf else .ninf
    else .fin (a / b)
  | .fin _, .inf => .fin 0
  | .fin _, .ninf => .fin 0
  | .inf, .fin b => if 0 ≤ b then .inf else .ninf
  | .ninf, .fin b => if 0 ≤ b then .ninf else .inf
  | .inf, .inf => .nan
  | .inf, .ninf => .nan
  | .ninf, .inf => .nan
  | .ninf, .ninf => .nan

def F64.mul : F64 → F64 → F64
  | .nan, _ => .nan
  | _, .nan => .nan
  | .fin a, .fin b => .fin (a * b)
  | .fin a, .inf => if a = 0 then .nan else if 0 < a then .inf else .ninf
  | .fin a, .ninf => if a = 0 then .nan else if 0 < a then .ninf else .inf
  | .inf, .fin b => if b = 0 then .nan else if 0 < b then .inf else .ninf
  | .ninf, .fin b => if b = 0 then .nan else if 0 < b then .ninf else .inf
  | .inf, .inf => .inf
  | .inf, .ninf => .ninf
  | .ninf, .inf => .ninf
  | .ninf, .ninf => .inf

/-- `f64::round`: nearest integer, halves away from zero. -/
def roundAway (q : ℚ) : Int := if 0 ≤ q then ⌊q + 1 / 2⌋ else ⌈q - 1 / 2⌉

def F64.roundF : F64 → F64
  | .fin q => .fin (roundAway q : ℚ)
  | .nan => .nan
  | .inf => .inf
  | .ninf => .ninf

/-- `as u8` on an `f64`: saturating cast (NaN ↦ 0, clamp to [0, 255],
truncate toward zero). -/
def F64.toU8 : F64 → Nat
  | .nan => 0
  | .inf => 255
  | .ninf => 0
  | .fin q => if q < 0 then 0 else min 255 ⌊q⌋.toNat

/-- One RGBA pixel. -/
structure Px where
  r : Nat
  g : Nat
  b : Nat
  a : Nat
deriving DecidableEq

/-- `((x - min) / (max - min) * 255.0).round() as u8`
(png_converter.rs:36-37). -/
def normChannel (x mn mx : F64) : Nat :=
  (((x.sub mn).div (mx.sub mn)).mul (F64.fin 255)).roundF.toU8

/-- The pixel loop of `convert_to_png` (png_converter.rs:31-40): for each
`i`, read `v_data[i]` (a panic if out of bounds), compute the channels, and
`put_pixel (i % width) (i / width)` (a panic if out of the image bounds). -/
def pngLoop (w h : Nat) (uMin uMax vMin vMax : F64) (v : List F64) :
    List F64 → Nat → List Px → Except String (List Px)
  | [], _, img => .ok img
  | uu :: rest, i, img =>
    match v[i]? with
    | none => .error "index out of bounds"
    | some vv =>
      if i % w < w ∧ i / w < h then
        pngLoop w h uMin uMax vMin vMax v rest (i + 1)
          (img.set (i / w * w + i % w)
            { r := normChannel uu uMin uMax, g := normChannel vv vMin vMax,
              b := 0, a := 255 })
      else .error "put_pixel out of bounds"

/-- `convert_to_png` (png_converter.rs:16): the RGBA pixel buffer of a
`width × height` image (`ImageBuffer::new` zero-initializes), with pixel
`i` set from the normalized `u`/`v` values.  The lossless PNG container
encoding around the buffer is not modelled. -/
def convertToPng (w h : Nat) (u v : List F64) (uMin uMax vMin vMax : F64) :
    Except String (List Px) :=
  pngLoop w h uMin uMax vMin vMax v u 0
    (List.replicate (w * h) { r := 0, g := 0, b := 0, a := 0 })

theorem pngLoop_spec (w h : Nat) (uMin uMax vMin vMax : F64) (v : List F64) :
    ∀ (us : List F64) (i : Nat) (img : List Px), 0 < w →
      i + us.length ≤ w * h → i + us.length ≤ v.length → img.length = w * h →
      ∃ out, pngLoop w h uMin uMax vMin vMax v us i img = .ok out ∧
        out.length = w * h ∧
        ∀ j, out[j]? =
          if i ≤ j ∧ j < i + us.length then
            some { r := normChannel (us.getD (j - i) F64.nan) uMin uMax,
                   g := normChannel (v.getD j F64.nan) vMin vMax,
                   b := 0, a := 255 }
          else img[j]? := by
  intro us
  induction us with
  | nil =>
    intro i img hw hlen hvlen himg
    refine ⟨img, rfl, himg, ?_⟩
    intro j
    rw [if_neg (by simp only [List.length_nil]; omega)]
  | cons uu rest ih =>
    intro i img hw hlen hvlen himg
    have hiv : i < v.length := by simp only [List.length_cons] at hvlen; omega
    have hvv : v[i]? = some (v.getD i F64.nan) := by
      rw [List.getD_eq_getElem?_getD, List.getElem?_eq_getElem hiv]
      rfl
    have hiwh : i < w * h := by simp only [List.length_cons] at hlen; omega
    have hyx : i / w * w + i % w = i := by
      have h0 := Nat.div_add_mod i w
      rw [Nat.mul_comm (i / w) w]
      omega
    have hylt : i / w < h := by
      rcases Nat.lt_or_ge (i / w) h with hlt | hge
      · exact hlt
      · exfalso
        have h1 : h * w ≤ i / w * w := Nat.mul_le_mul_right w hge
        have h2 : i / w * w ≤ i := Nat.div_mul_le_self i w
        have h3 : w * h = h * w := Nat.mul_comm w h
        omega
    simp only [pngLoop, hvv]
    rw [if_pos ⟨Nat.mod_lt i hw, hylt⟩]
    obtain ⟨out, hrun, hlen', hspec⟩ := ih (i + 1)
      (img.set (i / w * w + i % w)
        { r := normChannel uu uMin uMax, g := normChannel (v.getD i F64.nan) vMin vMax,
          b := 0, a := 255 })
      hw (by simp only [List.length_cons] at hlen; omega)
      (by simp only [List.length_cons] at hvlen; omega)
      (by rw [List.length_set]; exact himg)
    refine ⟨out, hrun, hlen', ?_⟩
    intro j
    rw [hspec j]
    by_cases hj1 : i + 1 ≤ j ∧ j < i + 1 + rest.length
    · have hcondp : i ≤ j ∧ j < i + (uu :: rest).length := by
        simp only [List.length_cons]
        omega
      rw [if_pos hj1, if_pos hcondp]
      have : rest.getD (j - (i + 1)) F64.nan = (uu :: rest).getD (j - i) F64.nan := by
        rw [show j - i = (j - (i + 1)) + 1 by omega]
        rfl
      rw [this]
    · rw [if_neg hj1]
      by_cases hj2 : j = i
      · have hcond : i ≤ j ∧ j < i + (uu :: rest).length := by
          simp only [List.length_cons]
          omega
        rw [if_pos hcond, hyx, hj2, List.getElem?_set_self (by omega)]
        have hg : (uu :: rest).getD (i - i) F64.nan = uu := by simp
        rw [hg]
      · have hcond : ¬(i ≤ j ∧ j < i + (uu :: rest).length) := by
          simp only [List.length_cons]
          omega
        rw [if_neg hcond, hyx, List.getElem?_set_ne (by omega)]

theorem normChannel_formula (q mn mx : ℚ) (hlt : mn < mx) (hlo : mn ≤ q) (hhi : q ≤ mx) :
    normChannel (F64.fin q) (F64.fin mn) (F64.fin mx) =
      (roundAway ((q - mn) / (mx - mn) * 255)).toNat := by
  have hne : mx - mn ≠ 0 := sub_ne_zero.mpr (ne_of_gt hlt)
  have ht0 : 0 ≤ (q - mn) / (mx - mn) * 255 :=
    mul_nonneg (div_nonneg (by linarith) (by linarith)) (by norm_num)
  have ht255 : (q - mn) / (mx - mn) * 255 ≤ 255 := by
    have h1 : (q - mn) / (mx - mn) ≤ 1 := (div_le_one (by linarith)).mpr (by linarith)
    calc (q - mn) / (mx - mn) * 255 ≤ 1 * 255 :=
        mul_le_mul_of_nonneg_right h1 (by norm_num)
      _ = 255 := by norm_num
  have hr0 : 0 ≤ roundAway ((q - mn) / (mx - mn) * 255) := by
    rw [roundAway, if_pos ht0]
    exact Int.floor_nonneg.mpr (by linarith)
  have hr255 : roundAway ((q - mn) / (mx - mn) * 255) ≤ 255 := by
    rw [roundAway, if_pos ht0]
    have h2 : ⌊(q - mn) / (mx - mn) * 255 + 1 / 2⌋ < 256 := Int.floor_lt.mpr (by
      push_cast
      linarith)
    omega
  have hdiv : F64.div (F64.fin (q - mn)) (F64.fin (mx - mn)) =
      F64.fin ((q - mn) / (mx - mn)) := by
    simp [F64.div, hne]
  rw [normChannel]
  show (F64.mul (F64.div (F64.sub (F64.fin q) (F64.fin mn))
    (F64.sub (F64.fin mx) (F64.fin mn))) (F64.fin 255)).roundF.toU8 = _
  rw [show F64.sub (F64.fin q) (F64.fin mn) = F64.fin (q - mn) from rfl,
    show F64.sub (F64.fin mx) (F64.fin mn) = F64.fin (mx - mn) from rfl, hdiv,
    show F64.mul (F64.fin ((q - mn) / (mx - mn))) (F64.fin 255) =
      F64.fin ((q - mn) / (mx - mn) * 255) from rfl]
  rw [show (F64.fin ((q - mn) / (mx - mn) * 255)).roundF =
    F64.fin ((roundAway ((q - mn) / (mx - mn) * 255) : Int) : ℚ) from rfl]
  rw [F64.toU8]
  rw [if_neg (not_lt.mpr (by exact_mod_cast hr0))]
  rw [Int.floor_intCast]
  rw [min_eq_right (by omega)]

theorem normChannel_degenerate (m : ℚ) :
    normChannel (F64.fin m) (F64.fin m) (F64.fin m) = 0 := by
  have h1 : F64.sub (F64.fin m) (F64.fin m) = F64.fin 0 := by
    simp [F64.sub]
  rw [normChannel, h1]
  have h2 : F64.div (F64.fin 0) (F64.fin 0) = F64.nan := by
    simp [F64.div]
  rw [h2]
  rfl

theorem getD_map_fin (u : List ℚ) (j : Nat) (hj : j < u.length) :
    (u.map F64.fin).getD j F64.nan = F64.fin (u.getD j 0) := by
  rw [List.getD_eq_getElem?_getD, List.getD_eq_getElem?_getD, List.getElem?_map,
    List.getElem?_eq_getElem hj]
  rfl

theorem getD_mem (u : List ℚ) (j : Nat) (hj : j < u.length) : u.getD j 0 ∈ u := by
  rw [List.getD_eq_getElem?_getD, List.getElem?_eq_getElem hj]
  exact List.getElem_mem hj

/-- Claim C8: raster codec.  For `width × height` equal-length u,v arrays
whose caller-supplied global extrema satisfy `uMin < uMax`, `vMin < vMax`,
every output pixel `i` has R = round(255·(u[i]−uMin)/(uMax−uMin)),
G = the same normalization of v, B = 0 and A = 255 (round = nearest,
halves away from zero, as `f64::round`). -/
theorem convert_to_png_spec (w h : Nat) (u v : List ℚ) (uMin uMax vMin vMax : ℚ)
    (hw : 0 < w) (hlen : u.length = w * h) (hvlen : v.length = u.length)
    (hu : uMin < uMax) (hv : vMin < vMax)
    (hub : ∀ q ∈ u, uMin ≤ q ∧ q ≤ uMax) (hvb : ∀ q ∈ v, vMin ≤ q ∧ q ≤ vMax) :
    ∃ out,
      convertToPng w h (u.map F64.fin) (v.map F64.fin)
        (F64.fin uMin) (F64.fin uMax) (F64.fin vMin) (F64.fin vMax) = .ok out ∧
      out.length = w * h ∧
      ∀ j, j < w * h →
        out[j]? = some
          { r := (roundAway ((u.getD j 0 - uMin) / (uMax - uMin) * 255)).toNat,
            g := (roundAway ((v.getD j 0 - vMin) / (vMax - vMin) * 255)).toNat,
            b := 0, a := 255 } := by
  obtain ⟨out, hrun, hlen', hspec⟩ := pngLoop_spec w h
    (F64.fin uMin) (F64.fin uMax) (F64.fin vMin) (F64.fin vMax) (v.map F64.fin)
    (u.map F64.fin) 0 (List.replicate (w * h) { r := 0, g := 0, b := 0, a := 255 - 255 })
    hw (by simp [hlen]) (by simp [hvlen]) (by simp)
  refine ⟨out, hrun, hlen', ?_⟩
  intro j hj
  have hju : j < u.length := by omega
  have hjv : j < v.length := by omega
  rw [hspec j, if_pos (by simp only [Nat.zero_add, List.length_map]; omega),
    Nat.sub_zero, getD_map_fin u j hju, getD_map_fin v j hjv,
    normChannel_formula _ _ _ hu (hub _ (getD_mem u j hju)).1 (hub _ (getD_mem u j hju)).2,
    normChannel_formula _ _ _ hv (hvb _ (getD_mem v j hjv)).1 (hvb _ (getD_mem v j hjv)).2]

/-- Witness for C8: u = [uMin, uMax] = [0, 1] over a 2×1 image encodes R
channel values exactly [0, 255]. -/
theorem convert_to_png_spec_witness :
    (0 : ℚ) < 1 ∧
    (convertToPng 2 1 [F64.fin 0, F64.fin 1] [F64.fin 0, F64.fin 1]
        (F64.fin 0) (F64.fin 1) (F64.fin 0) (F64.fin 1)).map (fun px => px.map Px.r) =
      .ok [0, 255] := by
  refine ⟨by norm_num, ?_⟩
  obtain ⟨out, hrun, hlen', hspec⟩ := convert_to_png_spec 2 1 [0, 1] [0, 1] 0 1 0 1
    (by norm_num) (by norm_num) (by norm_num) (by norm_num) (by norm_num)
    (by intro q hq; fin_cases hq <;> norm_num)
    (by intro q hq; fin_cases hq <;> norm_num)
  have hrun' : convertToPng 2 1 [F64.fin 0, F64.fin 1] [F64.fin 0, F64.fin 1]
      (F64.fin 0) (F64.fin 1) (F64.fin 0) (F64.fin 1) = .ok out := hrun
  rw [hrun']
  obtain ⟨a, b, rfl⟩ : ∃ a b, out = [a, b] := by
    match out, hlen' with
    | [a, b], _ => exact ⟨a, b, rfl⟩
  have h0 := hspec 0 (by norm_num)
  have h1 := hspec 1 (by norm_num)
  have hf0 : roundAway (((0 : ℚ) - 0) / (1 - 0) * 255) = 0 := by
    rw [roundAway, if_pos (by norm_num),
      show ((0 : ℚ) - 0) / (1 - 0) * 255 + 1 / 2 = 1 / 2 by norm_num,
      Int.floor_eq_iff]
    norm_num
  have hf1 : roundAway (((1 : ℚ) - 0) / (1 - 0) * 255) = 255 := by
    rw [roundAway, if_pos (by norm_num),
      show ((1 : ℚ) - 0) / (1 - 0) * 255 + 1 / 2 = 511 / 2 by norm_num,
      Int.floor_eq_iff]
    norm_num
  simp only [List.getElem?_cons_zero, List.getElem?_cons_succ, List.getD] at h0 h1
  rw [Option.some.injEq] at h0 h1
  subst h0
  subst h1
  simp only [Except.map, List.map_cons, List.map_nil]
  rw [show (([(0 : ℚ), 1].get? 0).getD 0 - 0) / (1 - 0) * 255 =
        ((0 : ℚ) - 0) / (1 - 0) * 255 from rfl,
    show (([(0 : ℚ), 1].get? 1).getD 0 - 0) / (1 - 0) * 255 =
        ((1 : ℚ) - 0) / (1 - 0) * 255 from rfl,
    hf0, hf1]
  rfl

theorem getD_mem_of_lt {α : Type} (u : List α) (j : Nat) (d : α) (hj : j < u.length) :
    u.getD j d ∈ u := by
  rw [List.getD_eq_getElem?_getD, List.getElem?_eq_getElem hj]
  exact List.getElem_mem hj

/-- Claim C9: degenerate normalization.  When the caller-supplied extrema
coincide (`uMax = uMin`, or symmetrically `vMax = vMin`) and the data
equals that extremum (which is what equal true extrema mean),
`convert_to_png` neither panics nor errors: the division yields NaN, the
saturating `as u8` cast maps NaN to 0, so the affected channel is 0 in
every pixel and a full-size image is still produced. -/
theorem convert_to_png_degenerate (w h : Nat) (u v : List F64) (um vm : ℚ)
    (uMin uMax vMin vMax : F64) (hw : 0 < w)
    (hlen : u.length = w * h) (hvlen : v.length = u.length) :
    ((∀ x ∈ u, x = F64.fin um) →
      ∃ out, convertToPng w h u v (F64.fin um) (F64.fin um) vMin vMax = .ok out ∧
        out.length = w * h ∧
        ∀ j, j < w * h → (out[j]?).map Px.r = some 0 ∧
          (out[j]?).map Px.b = some 0 ∧ (out[j]?).map Px.a = some 255) ∧
    ((∀ x ∈ v, x = F64.fin vm) →
      ∃ out, convertToPng w h u v uMin uMax (F64.fin vm) (F64.fin vm) = .ok out ∧
        out.length = w * h ∧
        ∀ j, j < w * h → (out[j]?).map Px.g = some 0 ∧
          (out[j]?).map Px.b = some 0 ∧ (out[j]?).map Px.a = some 255) := by
  constructor
  · intro hall
    obtain ⟨out, hrun, hlen', hspec⟩ := pngLoop_spec w h
      (F64.fin um) (F64.fin um) vMin vMax v u 0
      (List.replicate (w * h) { r := 0, g := 0, b := 0, a := 0 })
      hw (by omega) (by omega) (by simp)
    refine ⟨out, hrun, hlen', ?_⟩
    intro j hj
    have hju : j < u.length := by omega
    rw [hspec j, if_pos (by omega), Nat.sub_zero,
      hall _ (getD_mem_of_lt u j F64.nan hju), normChannel_degenerate]
    exact ⟨rfl, rfl, rfl⟩
  · intro hall
    obtain ⟨out, hrun, hlen', hspec⟩ := pngLoop_spec w h
      uMin uMax (F64.fin vm) (F64.fin vm) v u 0
      (List.replicate (w * h) { r := 0, g := 0, b := 0, a := 0 })
      hw (by omega) (by omega) (by simp)
    refine ⟨out, hrun, hlen', ?_⟩
    intro j hj
    have hjv : j < v.length := by omega
    rw [hspec j, if_pos (by omega), Nat.sub_zero,
      hall _ (getD_mem_of_lt v j F64.nan hjv), normChannel_degenerate]
    exact ⟨rfl, rfl, rfl⟩

/-- Witness for C9: a 2×1 image with `uMax = uMin = 3` and constant u data
still encodes, with R = 0 in both pixels. -/
theorem convert_to_png_degenerate_witness :
    (∀ x ∈ [F64.fin 3, F64.fin 3], x = F64.fin (3 : ℚ)) ∧
    (convertToPng 2 1 [F64.fin 3, F64.fin 3] [F64.fin 5, F64.fin 9]
        (F64.fin 3) (F64.fin 3) (F64.fin 5) (F64.fin 9)).map (fun px => px.map Px.r) =
      .ok [0, 0] := by
  refine ⟨by intro x hx; fin_cases hx <;> rfl, ?_⟩
  obtain ⟨out, hrun, hlen', hspec⟩ := (convert_to_png_degenerate 2 1
    [F64.fin 3, F64.fin 3] [F64.fin 5, F64.fin 9] 3 0
    (F64.fin 0) (F64.fin 0) (F64.fin 5) (F64.fin 9)
    (by norm_num) rfl rfl).1 (by intro x hx; fin_cases hx <;> rfl)
  rw [hrun]
  obtain ⟨a, b, rfl⟩ : ∃ a b, out = [a, b] := by
    match out, hlen' with
    | [a, b], _ => exact ⟨a, b, rfl⟩
  have ha : a.r = 0 := by simpa using (hspec 0 (by norm_num)).1
  have hb : b.r = 0 := by simpa using (hspec 1 (by norm_num)).1
  simp [Except.map, ha, hb]
